import Mathlib

/-!
Shallow embedding of the turn-based RPG battle simulator (Go, `package main`,
"RPG — turn-based battle simulator").

Modelling conventions:
* Go `int` is modelled as `ℤ`; all divisions written in the source with `/`
  are Go truncated division and are modelled with `Int.tdiv`.
* Go `float64` values (`CritRate`, `CritMult`, `DamageMultiplier`) are
  modelled as `ℚ`; the conversion `int(x)` (truncation toward zero) is
  modelled by `intOfRat`.
* `math/rand` is modelled by an oracle stream (`RNG`): `rand.Intn n` pops a
  natural from the integer stream and reduces it modulo `n`; a comparison
  `rand.Float64() < p` pops a rational from the float stream and compares it
  with `p`.  The model is deterministic given the streams, mirroring
  "deterministic given random seed".
* `logFunc` side effects are modelled by returning a `List LogEvent`; each
  event constructor carries the data of the corresponding `fmt.Sprintf` line.
* `type DamageType string` has exactly the three constants `physical`,
  `magic`, `pure` in the program; `Character.TakeDamage` treats every string
  other than `physical` / `magic` like `pure` (the final `else`), so the type
  is modelled as a closed three-constructor inductive.
* Go pointers (`*Character` shared between rosters and the turn list) are
  modelled by positional references (`Ref`) into the battle state, with all
  reads performed against the current state, mirroring live pointer reads.
-/

/-- Damage classification; mirrors the Go constants `Physical`, `Magic`, `Pure`. -/
inductive DamageType where
  | physical
  | magic
  | pure
deriving DecidableEq

/-- Truncation of a rational toward zero, the semantics of Go's `int(x)`
conversion applied to the rational model of a `float64` product. -/
def intOfRat (q : ℚ) : ℤ :=
  Int.tdiv q.num (q.den : ℤ)

/-- Combat statistics record, mirroring the Go struct `Stats`. -/
structure Stats where
  HPMax : ℤ
  HP : ℤ
  MPMax : ℤ
  MP : ℤ
  Attack : ℤ
  Defense : ℤ
  Magic : ℤ
  Resist : ℤ
  Speed : ℤ
  CritRate : ℚ
  CritMult : ℚ
deriving DecidableEq

/-- Mirror of the Go struct `Weapon`. -/
structure Weapon where
  Name : String
  DamageMin : ℤ
  DamageMax : ℤ
  DamageType : DamageType
  AttackBonus : ℤ
  MagicBonus : ℤ
deriving DecidableEq

/-- Mirror of the Go struct `Armor`. -/
structure Armor where
  Name : String
  DefenseBonus : ℤ
  ResistBonus : ℤ
  HPBonus : ℤ
deriving DecidableEq

/-- Alias for `Weapon`, used in signatures inside the `Character` namespace
where the bare name `Weapon` resolves to the field projection. -/
abbrev WeaponRec := Weapon

/-- Alias for `Armor`, used in signatures inside the `Character` namespace
where the bare name `Armor` resolves to the field projection. -/
abbrev ArmorRec := Armor

/-- Mirror of the Go struct `Effect`. -/
structure Effect where
  ID : String
  Name : String
  Duration : ℤ
  AtkMod : ℤ
  DefMod : ℤ
  SpeedMod : ℤ
  DotHP : ℤ
  From : String
deriving DecidableEq

/-- Mirror of the Go struct `Skill`; `Effect` is the optional effect template
applied to targets. -/
structure Skill where
  ID : String
  Name : String
  Description : String
  MPCost : ℤ
  DamageMultiplier : ℚ
  DamageType : DamageType
  HealHP : ℤ
  TargetAll : Bool
  Effect : Option Effect
deriving DecidableEq

/-- Mirror of the Go struct `Item` (held in inventories; not consulted by any
battle-resolution code path). -/
structure Item where
  ID : String
  Name : String
  Description : String
  Consumable : Bool
  HealHP : ℤ
  HealMP : ℤ
  EquipSlot : String
  Weapon : Option Weapon
  Armor : Option Armor
deriving DecidableEq

/-- Mirror of the Go struct `Inventory`. -/
structure Inventory where
  Items : List Item
deriving DecidableEq

/-- Mirror of the Go method `Inventory.Add`. -/
def Inventory.Add (inv : Inventory) (item : Item) : Inventory :=
  { inv with Items := inv.Items ++ [item] }

/-- Mirror of the Go method `Inventory.RemoveAt`: out-of-range indices are a
no-op. -/
def Inventory.RemoveAt (inv : Inventory) (i : ℤ) : Inventory :=
  if i < 0 ∨ (inv.Items.length : ℤ) ≤ i then inv
  else { inv with Items := inv.Items.take i.toNat ++ inv.Items.drop (i.toNat + 1) }

/-- Mirror of the Go struct `Character`.  `Team` stays a `String` as in the
source (comparisons are against the literal `"player"`). -/
structure Character where
  ID : String
  Name : String
  Stats : Stats
  Weapon : Option Weapon
  Armor : Option Armor
  Inv : Inventory
  Skills : List Skill
  Effects : List Effect
  Alive : Bool
  Team : String
deriving DecidableEq

/-- Battle log events; every constructor corresponds to one `logFunc`
format string in the Go source and carries the interpolated data. -/
inductive LogEvent where
  | dot (chName : String) (amount : ℤ)
  | effectEnded (effName chName : String)
  | died (chName : String)
  | gainsEffect (chName effName : String) (dur : ℤ)
  | equipsWeapon (chName wName : String)
  | equipsArmor (chName aName : String)
  | crit (chName : String)
  | attacks (aName tName : String) (dmg : ℤ) (dtype : DamageType)
  | invalidSkill (chName : String)
  | lacksMP (chName sName : String)
  | usesSkill (chName sName : String)
  | skillCrit (chName : String)
  | dealsDamage (aName : String) (dmg : ℤ) (tName sName : String)
  | heals (aName tName : String) (amount : ℤ)
  | roundHeader (n : ℤ)
  | thinking (chName : String)
  | playersWin
  | enemiesWin
deriving DecidableEq

/-- Battle log: the ordered list of emitted events. -/
abbrev Log := List LogEvent

/-- Mirror of the Go constructor `NewCharacter`. -/
def NewCharacter (id name team : String) (baseStats : Stats) : Character :=
  { ID := id
    Name := name
    Team := team
    Stats := { baseStats with HP := baseStats.HPMax, MP := baseStats.MPMax }
    Weapon := none
    Armor := none
    Inv := ⟨[]⟩
    Skills := []
    Effects := []
    Alive := true }

/-- Mirror of the Go method `Effect.Tick`. -/
def Effect.Tick (e : Effect) : Effect :=
  { e with Duration := e.Duration - 1 }

/-- Mirror of the Go method `Character.EffectiveAttack`. -/
def Character.EffectiveAttack (c : Character) : ℤ :=
  let atk := c.Stats.Attack + (match c.Weapon with | some w => w.AttackBonus | none => 0)
  c.Effects.foldl (fun a e => a + e.AtkMod) atk

/-- Mirror of the Go method `Character.EffectiveDefense`. -/
def Character.EffectiveDefense (c : Character) : ℤ :=
  let d := c.Stats.Defense + (match c.Armor with | some a => a.DefenseBonus | none => 0)
  c.Effects.foldl (fun a e => a + e.DefMod) d

/-- Mirror of the Go method `Character.EffectiveSpeed`. -/
def Character.EffectiveSpeed (c : Character) : ℤ :=
  c.Effects.foldl (fun a e => a + e.SpeedMod) c.Stats.Speed

/-- Damage-mitigation part of `Character.TakeDamage`: the value `actual`
computed there (type-dependent reduction, then the minimum-1 floor). -/
def Character.mitigate (c : Character) (amount : ℤ) (dtype : DamageType) : ℤ :=
  let actual :=
    match dtype with
    | .physical => amount - Int.tdiv c.EffectiveDefense 2
    | .magic => amount - Int.tdiv c.Stats.Resist 2
    | .pure => amount
  if actual < 1 then 1 else actual

/-- Mirror of the Go method `Character.TakeDamage`. -/
def Character.TakeDamage (c : Character) (amount : ℤ) (dtype : DamageType) :
    Character × Log :=
  let actual := c.mitigate amount dtype
  let hp := c.Stats.HP - actual
  if hp ≤ 0 then
    ({ c with Stats := { c.Stats with HP := 0 }, Alive := false }, [.died c.Name])
  else
    ({ c with Stats := { c.Stats with HP := hp } }, [])

/-- Mirror of the Go method `Character.Heal`. -/
def Character.Heal (c : Character) (amount : ℤ) : Character :=
  let hp := c.Stats.HP + amount
  if c.Stats.HPMax < hp then { c with Stats := { c.Stats with HP := c.Stats.HPMax } }
  else { c with Stats := { c.Stats with HP := hp } }

/-- Mirror of the Go method `Character.UseMP`: the `Bool` is the Go return
value, the `Character` the (possibly) updated actor. -/
def Character.UseMP (c : Character) (amount : ℤ) : Bool × Character :=
  if c.Stats.MP < amount then (false, c)
  else (true, { c with Stats := { c.Stats with MP := c.Stats.MP - amount } })

/-- Mirror of the Go method `Character.AddEffect`. -/
def Character.AddEffect (c : Character) (e : Effect) : Character × Log :=
  ({ c with Effects := c.Effects ++ [e] }, [.gainsEffect c.Name e.Name e.Duration])

/-- Mirror of the Go method `Character.EquipWeapon`. -/
def Character.EquipWeapon (c : Character) (w : WeaponRec) : Character × Log :=
  ({ c with Weapon := some w }, [.equipsWeapon c.Name w.Name])

/-- Mirror of the Go method `Character.UnequipWeapon`. -/
def Character.UnequipWeapon (c : Character) : Character :=
  { c with Weapon := none }

/-- Mirror of the Go method `Character.EquipArmor`. -/
def Character.EquipArmor (c : Character) (a : ArmorRec) : Character × Log :=
  let c1 := { c with Armor := some a }
  let c2 :=
    if a.HPBonus ≠ 0 then
      { c1 with Stats := { c1.Stats with
          HPMax := c1.Stats.HPMax + a.HPBonus
          HP := c1.Stats.HP + a.HPBonus } }
    else c1
  (c2, [.equipsArmor c.Name a.Name])

/-- Mirror of the Go method `Character.UnequipArmor`. -/
def Character.UnequipArmor (c : Character) : Character :=
  let c1 :=
    match c.Armor with
    | some a =>
        if a.HPBonus ≠ 0 then
          let hpMax := c.Stats.HPMax - a.HPBonus
          let hp := if hpMax < c.Stats.HP then hpMax else c.Stats.HP
          { c with Stats := { c.Stats with HPMax := hpMax, HP := hp } }
        else c
    | none => c
  { c1 with Armor := none }

/-- Per-effect tick-and-expire pass of `Character.ApplyEffectsEndTurn`:
returns the surviving (ticked) effects and the removal log, in source order.
`chName` is the holder's name used in the removal log lines. -/
def tickEffects (chName : String) : List Effect → List Effect × Log
  | [] => ([], [])
  | e :: es =>
      let e1 := e.Tick
      let (ks, ls) := tickEffects chName es
      if 0 < e1.Duration then (e1 :: ks, ls)
      else (ks, .effectEnded e1.Name chName :: ls)

/-- Mirror of the Go method `Character.ApplyEffectsEndTurn`. -/
def Character.ApplyEffectsEndTurn (c : Character) : Character × Log :=
  let (ks, ls) := tickEffects c.Name c.Effects
  ({ c with Effects := ks }, ls)

/-- Mirror of the Go method `Character.ApplyEffectsStartTurn`. -/
def Character.ApplyEffectsStartTurn (c : Character) : Character × Log :=
  let totalDot := c.Effects.foldl (fun a e => if e.DotHP ≠ 0 then a + e.DotHP else a) 0
  if totalDot ≠ 0 then
    let (c1, l1) := c.TakeDamage totalDot .pure
    (c1, l1 ++ [.dot c.Name totalDot])
  else (c, [])

/-- Oracle model of `math/rand`: an infinite stream of naturals feeding
`rand.Intn`, and an infinite stream of rationals feeding `rand.Float64`.
Popping a value advances the corresponding stream. -/
structure RNG where
  ints : Nat → Nat
  floats : Nat → ℚ

/-- Model of `rand.Intn n`: the next integer-stream value reduced modulo `n`
(for the positive `n` the program always supplies, the result lies in
`[0, n)`). -/
def RNG.nextIntn (r : RNG) (n : ℤ) : ℤ × RNG :=
  (Int.emod (r.ints 0 : ℤ) n, ⟨fun k => r.ints (k + 1), r.floats⟩)

/-- Model of one `rand.Float64()` draw. -/
def RNG.nextFloat (r : RNG) : ℚ × RNG :=
  (r.floats 0, ⟨r.ints, fun k => r.floats (k + 1)⟩)

/-- Positional reference to a combatant: which roster (`side = true` means
the player roster) and the index within it.  This models the Go `*Character`
pointers shared between the rosters and the per-round turn list. -/
structure Ref where
  side : Bool
  idx : Nat
deriving DecidableEq

/-- Mirror of the Go struct `Battle`. -/
structure Battle where
  Players : List Character
  Enemies : List Character
  Round : ℤ
deriving DecidableEq

/-- Mirror of the Go constructor `NewBattle`. -/
def NewBattle (players enemies : List Character) : Battle :=
  { Players := players, Enemies := enemies, Round := 0 }

/-- Dereference a combatant pointer against the current battle state. -/
def Battle.get (b : Battle) (r : Ref) : Option Character :=
  if r.side then b.Players[r.idx]? else b.Enemies[r.idx]?

/-- Write through a combatant pointer (no-op on a dangling reference, which
the program never creates). -/
def Battle.setAt (b : Battle) (r : Ref) (c : Character) : Battle :=
  if r.side then { b with Players := b.Players.set r.idx c }
  else { b with Enemies := b.Enemies.set r.idx c }

/-- Apply a logging character update through a pointer. -/
def Battle.modifyAt (b : Battle) (r : Ref) (f : Character → Character × Log) :
    Battle × Log :=
  match b.get r with
  | none => (b, [])
  | some c =>
      let (c1, l) := f c
      (b.setAt r c1, l)

/-- Mirror of the Go method `Battle.AllDead`: any team string other than
`"player"` selects the enemy roster, as in the source. -/
def Battle.AllDead (b : Battle) (team : String) : Bool :=
  let chars := if team = "player" then b.Players else b.Enemies
  chars.all (fun c => !c.Alive)

/-- Roster selected by a positional side. -/
def Battle.rosterOf (b : Battle) (side : Bool) : List Character :=
  if side then b.Players else b.Enemies

/-- All pointers into one roster, in roster order (used for `TargetAll`
skills, whose Go target slice is the whole opposing roster). -/
def Battle.sideRefs (b : Battle) (side : Bool) : List Ref :=
  (List.range (b.rosterOf side).length).map (fun i => ⟨side, i⟩)

/-- Mirror of the Go helper `chooseFirstAlive` applied to one roster:
pointer to the first living combatant, if any. -/
def Battle.firstAliveRef (b : Battle) (side : Bool) : Option Ref :=
  ((b.rosterOf side).findIdx? (·.Alive)).map (fun i => ⟨side, i⟩)

/-- Effective speed read through a pointer (sort key of the turn order; a
dangling reference, never created by the program, sorts as 0). -/
def Battle.speedKey (b : Battle) (r : Ref) : ℤ :=
  match b.get r with
  | some c => c.EffectiveSpeed
  | none => 0

/-- Insert `x` into `l`, passing over exactly the elements that strictly
precede it: the single step of the insertion sort below. -/
def insertBy (less : Ref → Ref → Prop) [DecidableRel less] (x : Ref) :
    List Ref → List Ref
  | [] => [x]
  | y :: ys => if less y x then y :: insertBy less x ys else x :: y :: ys

/-- Insertion sort.  Go's `sort.Slice` dispatches to its insertion sort for
slices of at most 12 elements (every battle in this program has 5
combatants); for those sizes this function computes exactly the slice
`sort.Slice` produces for the strict comparator used in `Battle.Turn`. -/
def insertionSortBy (less : Ref → Ref → Prop) [DecidableRel less] :
    List Ref → List Ref
  | [] => []
  | x :: xs => insertBy less x (insertionSortBy less xs)

/-- Comparator of `Battle.Turn`'s `sort.Slice` call: strictly greater
effective speed comes first. -/
def Battle.speedLess (b : Battle) (r1 r2 : Ref) : Prop :=
  b.speedKey r2 < b.speedKey r1

instance (b : Battle) : DecidableRel b.speedLess := fun r1 r2 =>
  inferInstanceAs (Decidable (b.speedKey r2 < b.speedKey r1))

/-- The round's acting order: the combined pointer list sorted descending by
effective speed. -/
def Battle.sortRefs (b : Battle) (l : List Ref) : List Ref :=
  insertionSortBy b.speedLess l

/-- The combined pointer list built at the top of `Battle.Turn`: players
first, then enemies, each in roster order. -/
def Battle.allRefs (b : Battle) : List Ref :=
  b.sideRefs true ++ b.sideRefs false

/-- Target list for a skill use, from the action-choice block of
`Battle.Turn`: default is the first living opposing combatant; a skill with
positive heal, or any skill used by a low-HP non-player actor, self-targets;
a `TargetAll` skill targets the whole opposing roster.  (When no opposing
combatant lives, the Go slice holds a nil pointer; that state is unreachable
because the round stops as soon as a roster is wiped, and is modelled as an
empty target list.) -/
def Battle.skillTargets (b : Battle) (r : Ref) (actor : Character) (s : Skill)
    (targetSide : Bool) : List Ref :=
  let base := match b.firstAliveRef targetSide with | some t => [t] | none => []
  let t1 :=
    if 0 < s.HealHP ∨
        (actor.Stats.HP < Int.tdiv actor.Stats.HPMax 2 ∧ actor.Team ≠ "player") then
      [r]
    else base
  if s.TargetAll then b.sideRefs targetSide else t1

/-- Mirror of the Go method `Character.BasicAttack`, lifted to battle state:
`aRef` is the attacker pointer, `tRef` the target pointer. -/
def Battle.basicAttackAt (b : Battle) (aRef tRef : Ref) (rng : RNG) :
    Battle × Log × RNG :=
  match b.get aRef with
  | none => (b, [], rng)
  | some c =>
      if c.Alive = false then (b, [], rng)
      else
        let mn := match c.Weapon with | some w => w.DamageMin | none => 1
        let mx := match c.Weapon with | some w => w.DamageMax | none => 2
        let dt := match c.Weapon with | some w => w.DamageType | none => .physical
        let (roll, rng1) := rng.nextIntn (mx - mn + 1)
        let base0 := roll + mn + c.EffectiveAttack
        let (f, rng2) := rng1.nextFloat
        let (base1, lCrit) :=
          if f < c.Stats.CritRate then
            (intOfRat ((base0 : ℚ) * c.Stats.CritMult), [LogEvent.crit c.Name])
          else (base0, ([] : Log))
        let tName := match b.get tRef with | some t => t.Name | none => ""
        let (b1, lDmg) := b.modifyAt tRef (fun t => t.TakeDamage base1 dt)
        (b1, lCrit ++ [.attacks c.Name tName base1 dt] ++ lDmg, rng2)

/-- Damage half of `Character.UseSkillAt`: one pass over the target list.
All reads (the attacker's stats, the target's liveness) are performed against
the current state, as the Go pointers do. -/
def skillDamageLoop (aRef : Ref) (s : Skill) :
    Battle → List Ref → RNG → Battle × Log × RNG
  | b, [], rng => (b, [], rng)
  | b, tRef :: rest, rng =>
      match b.get tRef, b.get aRef with
      | some t, some c =>
          if t.Alive = false then skillDamageLoop aRef s b rest rng
          else
            let p0 :=
              if s.DamageType = DamageType.magic then
                intOfRat ((c.Stats.Magic : ℚ) * s.DamageMultiplier)
              else intOfRat ((c.EffectiveAttack : ℚ) * s.DamageMultiplier)
            let (j, rng1) := rng.nextIntn 3
            let p1 := p0 + j - 1
            let (f, rng2) := rng1.nextFloat
            let (p2, lc) :=
              if f < c.Stats.CritRate then
                (intOfRat ((p1 : ℚ) * c.Stats.CritMult), [LogEvent.skillCrit c.Name])
              else (p1, ([] : Log))
            let (t1, ld) := t.TakeDamage p2 s.DamageType
            let b1 := b.setAt tRef t1
            let (b2, le) :=
              match s.Effect with
              | some e => b1.modifyAt tRef (fun t2 => t2.AddEffect e)
              | none => (b1, ([] : Log))
            let (b3, lrest, rng3) := skillDamageLoop aRef s b2 rest rng2
            (b3, lc ++ [.dealsDamage c.Name p2 t.Name s.Name] ++ ld ++ le ++ lrest, rng3)
      | _, _ => skillDamageLoop aRef s b rest rng

/-- Heal half of `Character.UseSkillAt`: one pass over the target list; no
randomness is drawn here. -/
def skillHealLoop (aRef : Ref) (s : Skill) :
    Battle → List Ref → Battle × Log
  | b, [] => (b, [])
  | b, tRef :: rest =>
      match b.get tRef, b.get aRef with
      | some t, some c =>
          if t.Alive = false then skillHealLoop aRef s b rest
          else
            let b1 := b.setAt tRef (t.Heal s.HealHP)
            let (b2, le) :=
              match s.Effect with
              | some e => b1.modifyAt tRef (fun t2 => t2.AddEffect e)
              | none => (b1, ([] : Log))
            let (b3, lrest) := skillHealLoop aRef s b2 rest
            (b3, [.heals c.Name t.Name s.HealHP] ++ le ++ lrest)
      | _, _ => skillHealLoop aRef s b rest

/-- Mirror of the Go method `Character.UseSkillAt`, lifted to battle state.
The skill index always comes from `rand.Intn(len(skills))`, hence is a
natural; the Go bounds check `idx < 0 || idx >= len` merges with the list
lookup. -/
def Battle.useSkillAtB (b : Battle) (aRef : Ref) (idx : Nat) (targs : List Ref)
    (rng : RNG) : Battle × Log × RNG :=
  match b.get aRef with
  | none => (b, [], rng)
  | some c =>
      match c.Skills[idx]? with
      | none => (b, [.invalidSkill c.Name], rng)
      | some s =>
          if c.Stats.MP < s.MPCost then (b, [.lacksMP c.Name s.Name], rng)
          else
            let b1 := b.setAt aRef
              { c with Stats := { c.Stats with MP := c.Stats.MP - s.MPCost } }
            let (b2, l2, rng2) :=
              if 0 < s.DamageMultiplier then skillDamageLoop aRef s b1 targs rng
              else (b1, [], rng)
            let (b3, l3) :=
              if 0 < s.HealHP then skillHealLoop aRef s b2 targs else (b2, [])
            (b3, LogEvent.usesSkill c.Name s.Name :: (l2 ++ l3), rng2)

/-- Fallback branch of the action choice: basic attack on the first living
opposing combatant, skipped (drawing no randomness) when none lives. -/
def Battle.tryBasicAttack (b : Battle) (r : Ref) (targetSide : Bool)
    (rng : RNG) : Battle × Log × RNG :=
  match b.firstAliveRef targetSide with
  | none => (b, [], rng)
  | some t => b.basicAttackAt r t rng

/-- One actor's slice of `Battle.Turn`: the liveness skip, start-of-turn
effects, the 50%-skill-else-attack action choice, and end-of-turn effects.
The `Bool` records whether the actor was processed (a dead actor is skipped
by `continue`, which also skips the termination check).  `time.Sleep` calls
are presentation-only pacing with no effect on state and are not modelled. -/
def Battle.actTurn (b : Battle) (r : Ref) (rng : RNG) :
    Battle × Log × RNG × Bool :=
  match b.get r with
  | none => (b, [], rng, false)
  | some actor =>
      if actor.Alive = false then (b, [], rng, false)
      else
        let (b1, l1) := b.modifyAt r Character.ApplyEffectsStartTurn
        match b1.get r with
        | none => (b1, [.thinking actor.Name] ++ l1, rng, true)
        | some actor1 =>
            let targetSide : Bool := if actor1.Team = "player" then false else true
            let (b2, l2, rng2) :=
              if 0 < actor1.Skills.length then
                let (f, rngA) := rng.nextFloat
                if f < mkRat 1 2 then
                  let (si, rngB) := rngA.nextIntn (actor1.Skills.length : ℤ)
                  let idx := si.toNat
                  match actor1.Skills[idx]? with
                  | some s =>
                      if s.MPCost ≤ actor1.Stats.MP then
                        let targ := b1.skillTargets r actor1 s targetSide
                        b1.useSkillAtB r idx targ rngB
                      else b1.tryBasicAttack r targetSide rngB
                  | none => b1.tryBasicAttack r targetSide rngB
                else b1.tryBasicAttack r targetSide rngA
              else b1.tryBasicAttack r targetSide rng
            let (b3, l3) := b2.modifyAt r Character.ApplyEffectsEndTurn
            (b3, [.thinking actor.Name] ++ l1 ++ l2 ++ l3, rng2, true)

/-- Actor loop of `Battle.Turn`: after each processed actor the termination
check runs and, when a roster is wiped, the remaining actors of the round are
abandoned. -/
def turnLoop : List Ref → Battle → RNG → Battle × Log × RNG
  | [], b, rng => (b, [], rng)
  | r :: rest, b, rng =>
      let (b1, l1, rng1, acted) := b.actTurn r rng
      if acted ∧ (b1.AllDead "player" ∨ b1.AllDead "enemy") then (b1, l1, rng1)
      else
        let (b2, l2, rng2) := turnLoop rest b1 rng1
        (b2, l1 ++ l2, rng2)

/-- Mirror of the Go method `Battle.Turn`: increment the round counter,
build and sort the combined pointer list, then run the actor loop. -/
def Battle.Turn (b : Battle) (rng : RNG) : Battle × Log × RNG :=
  let b0 := { b with Round := b.Round + 1 }
  let sorted := b0.sortRefs b0.allRefs
  let (b1, l, rng1) := turnLoop sorted b0 rng
  (b1, .roundHeader b0.Round :: l, rng1)

/-- Outcome of `Battle.Run` under a fuel bound on the number of rounds:
`winner = some true` means the "Players win!" line was printed, `some false`
the "Enemies win!" line, `none` that the fuel ran out with the loop still
going. -/
structure RunResult where
  winner : Option Bool
  battle : Battle
  log : Log
  rng : RNG

/-- Mirror of the Go method `Battle.Run`, executing at most `fuel` rounds of
its `for` loop (the loop itself has no bound; see the termination analysis
below). -/
def Battle.runFuel (fuel : Nat) (b : Battle) (rng : RNG) : RunResult :=
  if b.AllDead "player" ∨ b.AllDead "enemy" then
    { winner := some (b.AllDead "enemy")
      battle := b
      log := [if b.AllDead "enemy" then .playersWin else .enemiesWin]
      rng := rng }
  else
    match fuel with
    | 0 => { winner := none, battle := b, log := [], rng := rng }
    | n + 1 =>
        let (b1, l, rng1) := b.Turn rng
        let R := Battle.runFuel n b1 rng1
        { R with log := l ++ R.log }

/-- Iterated end-of-turn ticking: `n` invocations of
`Character.ApplyEffectsEndTurn` on the same holder. -/
def endTurnN : Nat → Character → Character
  | 0, c => c
  | n + 1, c => endTurnN n (c.ApplyEffectsEndTurn).1

/-- Dead-at-a-pointer predicate: the combatant the pointer dereferences to
(if any) has `Alive = false`. -/
def Battle.deadAt (b : Battle) (r : Ref) : Prop :=
  ∀ c, b.get r = some c → c.Alive = false

/-- One battle state conserves another's deaths: every pointer dead in the
first is still dead in the second. -/
def deadMono (b1 b2 : Battle) : Prop :=
  ∀ r, b1.deadAt r → b2.deadAt r

/-- The battle terminates for some fuel: the `Battle.Run` loop exits after
finitely many rounds. -/
def Terminates (b : Battle) (rng : RNG) : Prop :=
  ∃ fuel, (Battle.runFuel fuel b rng).winner.isSome

/-- Erase the two battle-irrelevant equipment fields of a weapon
(`MagicBonus` is never read by any battle computation). -/
def scrubWeapon (w : Weapon) : Weapon :=
  { w with MagicBonus := 0 }

/-- Erase the two battle-irrelevant equipment fields of an armor
(`ResistBonus` is never read by any battle computation). -/
def scrubArmor (a : Armor) : Armor :=
  { a with ResistBonus := 0 }

/-- Erase `Weapon.MagicBonus` and `Armor.ResistBonus` from a combatant. -/
def scrubChar (c : Character) : Character :=
  { c with Weapon := c.Weapon.map scrubWeapon, Armor := c.Armor.map scrubArmor }

/-- Erase `Weapon.MagicBonus` and `Armor.ResistBonus` everywhere in a battle
state.  Two battles with the same scrub differ at most in those fields. -/
def scrubBattle (b : Battle) : Battle :=
  { b with Players := b.Players.map scrubChar, Enemies := b.Enemies.map scrubChar }

/-- All-zero random streams, used as concrete random choices. -/
def rngZero : RNG := ⟨fun _ => 0, fun _ => 0⟩

/-- One-round status effect carrying heavy damage-over-time. -/
def c1DotEffect : Effect := ⟨"d", "deathdot", 2, 0, 0, 0, 100, ""⟩

/-- Plain physical damage skill with zero MP cost. -/
def c1Strike : Skill := ⟨"s", "strike", "", 0, 1, .physical, 0, false, none⟩

/-- Player combatant whose own DOT kills it at the start of its turn, after
which it still casts `c1Strike` (Go's `UseSkillAt` has no actor-liveness
check) and wipes the enemy roster in the same turn. -/
def c1P : Character :=
  ⟨"p1", "P", ⟨10, 10, 10, 10, 5, 0, 0, 0, 5, 0, 1⟩, none, none, ⟨[]⟩,
    [c1Strike], [c1DotEffect], true, "player"⟩

/-- One-hit-point enemy wiped by the player's dying strike. -/
def c1E : Character :=
  ⟨"e1", "E", ⟨1, 1, 0, 0, 1, 0, 0, 0, 1, 0, 1⟩, none, none, ⟨[]⟩,
    [], [], true, "enemy"⟩

/-- Battle in which both rosters are wiped in the same round. -/
def c1B : Battle := ⟨[c1P], [c1E], 0⟩

/-- Battle with a dead enemy roster, used by the C1 amended-winner witness. -/
def c1WB : Battle :=
  ⟨[⟨"p", "P", ⟨10, 10, 0, 0, 1, 0, 0, 0, 5, 0, 1⟩, none, none, ⟨[]⟩, [], [], true, "player"⟩],
   [⟨"e", "E", ⟨10, 0, 0, 0, 1, 0, 0, 0, 1, 0, 1⟩, none, none, ⟨[]⟩, [], [], false, "enemy"⟩],
   0⟩

/-- Self-heal skill with zero MP cost: usable forever. -/
def c3HealSkill : Skill := ⟨"h", "heal", "", 0, 0, .magic, 5, false, none⟩

/-- Full-health player that always self-heals at zero cost. -/
def c3P : Character :=
  ⟨"p1", "P", ⟨10, 10, 0, 0, 1, 0, 0, 0, 5, 0, 1⟩, none, none, ⟨[]⟩,
    [c3HealSkill], [], true, "player"⟩

/-- Full-health enemy that always self-heals at zero cost. -/
def c3E : Character :=
  ⟨"e1", "E", ⟨10, 10, 0, 0, 1, 0, 0, 0, 1, 0, 1⟩, none, none, ⟨[]⟩,
    [c3HealSkill], [], true, "enemy"⟩

/-- Battle whose per-round state is a fixed point: it never terminates. -/
def c3B (k : ℤ) : Battle := ⟨[c3P], [c3E], k⟩

/-- Combatant at 8/10 HP used for the equip round-trip counterexample. -/
def c4Char : Character :=
  ⟨"x", "X", ⟨10, 8, 0, 0, 1, 0, 0, 0, 1, 0, 1⟩, none, none, ⟨[]⟩, [], [], true, "player"⟩

/-- Armor granting 5 bonus HP. -/
def c4Armor : Armor := ⟨"A", 0, 0, 5⟩

/-- Damage-only skill (`HealHP = 0`) used by the self-target counterexample. -/
def c5Strike : Skill := ⟨"s", "strike", "", 0, 1, .physical, 0, false, none⟩

/-- Enemy below half HP holding only the damage skill. -/
def c5Enemy : Character :=
  ⟨"e", "E", ⟨20, 5, 10, 10, 4, 0, 0, 0, 6, 0, 1⟩, none, none, ⟨[]⟩,
    [c5Strike], [], true, "enemy"⟩

/-- Living player combatant that would be the default target. -/
def c5Player : Character :=
  ⟨"p", "P", ⟨10, 10, 0, 0, 1, 0, 0, 0, 7, 0, 1⟩, none, none, ⟨[]⟩, [], [], true, "player"⟩

/-- Battle context for the self-target counterexample. -/
def c5B : Battle := ⟨[c5Player], [c5Enemy], 0⟩

/-- Attacker of the spec's damage scenario: attack 6, weapon range [3,6],
crit impossible. -/
def c7Attacker : Character :=
  ⟨"a", "A", ⟨50, 50, 0, 0, 6, 0, 0, 0, 7, 0, 1⟩,
    some ⟨"Sword", 3, 6, .physical, 0, 0⟩, none, ⟨[]⟩, [], [], true, "player"⟩

/-- Defender of the spec's damage scenario: defense 3. -/
def c7Target : Character :=
  ⟨"t", "T", ⟨100, 100, 0, 0, 1, 3, 0, 0, 1, 0, 1⟩, none, none, ⟨[]⟩, [], [], true, "enemy"⟩

/-- Battle context for the damage scenario. -/
def c7B : Battle := ⟨[c7Attacker], [c7Target], 0⟩

/-- Skill costing 8 MP, from the spec's insufficient-MP scenario. -/
def c8Skill : Skill := ⟨"k", "bolt", "", 8, 1, .magic, 0, false, none⟩

/-- Actor with 5 MP attempting the 8-MP skill. -/
def c8Actor : Character :=
  ⟨"a", "A", ⟨30, 30, 20, 5, 3, 1, 2, 1, 4, 0, 1⟩, none, none, ⟨[]⟩,
    [c8Skill], [], true, "player"⟩

/-- Bystander target of the aborted skill. -/
def c8Target : Character :=
  ⟨"t", "T", ⟨30, 30, 0, 0, 3, 1, 2, 1, 4, 0, 1⟩, none, none, ⟨[]⟩, [], [], true, "enemy"⟩

/-- Battle context for the insufficient-MP scenario. -/
def c8B : Battle := ⟨[c8Actor], [c8Target], 0⟩

/-- Effect with a 2-round duration and a visible attack delta. -/
def c9Effect : Effect := ⟨"f", "focus", 2, 3, 0, 0, 0, ""⟩

/-- Holder of `c9Effect` for the expiry witness. -/
def c9Char : Character :=
  ⟨"c", "C", ⟨30, 30, 0, 0, 5, 0, 0, 0, 4, 0, 1⟩, none, none, ⟨[]⟩,
    [], [c9Effect], true, "player"⟩

/-- Four combatants with speeds 7, 5, 4, 6 — the spec's turn-order example
(two share no speed; stability is exercised by `c6BTie` below). -/
def c6B : Battle :=
  ⟨[⟨"p1", "P1", ⟨10, 10, 0, 0, 1, 0, 0, 0, 7, 0, 1⟩, none, none, ⟨[]⟩, [], [], true, "player"⟩,
    ⟨"p2", "P2", ⟨10, 10, 0, 0, 1, 0, 0, 0, 5, 0, 1⟩, none, none, ⟨[]⟩, [], [], true, "player"⟩],
   [⟨"e1", "E1", ⟨10, 10, 0, 0, 1, 0, 0, 0, 4, 0, 1⟩, none, none, ⟨[]⟩, [], [], true, "enemy"⟩,
    ⟨"e2", "E2", ⟨10, 10, 0, 0, 1, 0, 0, 0, 6, 0, 1⟩, none, none, ⟨[]⟩, [], [], true, "enemy"⟩],
   0⟩

/-- Weapon whose only battle-relevant difference from `c10Weapon2` is none:
the two differ in `MagicBonus` alone. -/
def c10Weapon1 : Weapon := ⟨"Staff", 1, 3, .magic, 0, 1⟩

/-- Same weapon with a different `MagicBonus`. -/
def c10Weapon2 : Weapon := ⟨"Staff", 1, 3, .magic, 0, 9⟩

/-- Armor variant with `ResistBonus = 0`. -/
def c10Armor1 : Armor := ⟨"Mail", 2, 0, 0⟩

/-- Same armor with a different `ResistBonus`. -/
def c10Armor2 : Armor := ⟨"Mail", 2, 7, 0⟩

/-- Magic-skill player of the C10 witness pair. -/
def c10P (w : Weapon) : Character :=
  ⟨"p", "P", ⟨40, 40, 20, 20, 5, 2, 6, 2, 7, 0, 1⟩, some w, none, ⟨[]⟩,
    [⟨"fb", "fireball", "", 6, 2, .magic, 0, false, none⟩], [], true, "player"⟩

/-- Armored enemy of the C10 witness pair. -/
def c10E (a : Armor) : Character :=
  ⟨"e", "E", ⟨25, 25, 0, 0, 4, 3, 1, 4, 5, 0, 1⟩,
    some ⟨"Dagger", 2, 4, .physical, 1, 0⟩, some a, ⟨[]⟩, [], [], true, "enemy"⟩

/-- First battle of the C10 witness pair. -/
def c10B1 : Battle := ⟨[c10P c10Weapon1], [c10E c10Armor1], 0⟩

/-- Second battle: identical except for `MagicBonus` / `ResistBonus`. -/
def c10B2 : Battle := ⟨[c10P c10Weapon2], [c10E c10Armor2], 0⟩

/-- Combatant used by the C2 damage-invariant witness. -/
def c2Char : Character :=
  ⟨"c2", "C2", ⟨30, 20, 0, 0, 5, 4, 0, 2, 3, 0, 1⟩, none, none, ⟨[]⟩, [], [], true, "player"⟩

/-- Survival map of `n` end-of-turn ticks on a single effect: the effect
survives (with duration reduced by `n`) exactly when its duration exceeds
`n`. -/
def expireMap (n : ℤ) (e : Effect) : Option Effect :=
  if n < e.Duration then some { e with Duration := e.Duration - n } else none

/-- A pointer produced by `Battle.firstAliveRef` lies on the requested side. -/
theorem firstAliveRef_side (b : Battle) (side : Bool) (t : Ref)
    (h : b.firstAliveRef side = some t) : t.side = side := by
  unfold Battle.firstAliveRef at h
  cases hfi : (b.rosterOf side).findIdx? (·.Alive) with
  | none => rw [hfi] at h; simp at h
  | some i => rw [hfi] at h; simp at h; rw [← h]

/-- C4, counterexample: a combatant at 8/10 HP equips `+5 HP` armor, takes no
damage, and unequips; `maxHP` returns to 10 but `hp` ends at 10, not at its
pre-equip value 8.  The round trip is not the identity on `hp`. -/
theorem c4_roundtrip_counterexample :
    ((c4Char.EquipArmor c4Armor).1.UnequipArmor).Stats.HPMax = c4Char.Stats.HPMax ∧
    ((c4Char.EquipArmor c4Armor).1.UnequipArmor).Stats.HP = 10 ∧
    c4Char.Stats.HP = 8 ∧
    c4Char.Stats.HP ≤ c4Char.Stats.HPMax ∧ 0 < c4Armor.HPBonus := by
  decide

/-- C4, amended: equipping armor with `hpBonus = N` adds `N` to both `maxHP`
and `hp`; unequipping restores `maxHP` exactly and clamps `hp` to it, so the
no-damage round trip ends with `hp = min (hp + N) maxHP` (the pre-equip `hp`
exactly when `hp + N ≤ maxHP`, and `maxHP` otherwise), not always the
pre-equip `hp`. -/
theorem c4_equip_unequip_roundtrip (c : Character) (a : Armor)
    (h : c.Stats.HP ≤ c.Stats.HPMax) :
    (c.EquipArmor a).1.Stats.HPMax = c.Stats.HPMax + a.HPBonus ∧
    (c.EquipArmor a).1.Stats.HP = c.Stats.HP + a.HPBonus ∧
    ((c.EquipArmor a).1.UnequipArmor).Stats.HPMax = c.Stats.HPMax ∧
    ((c.EquipArmor a).1.UnequipArmor).Stats.HP = min (c.Stats.HP + a.HPBonus) c.Stats.HPMax := by
  unfold Character.EquipArmor Character.UnequipArmor
  by_cases hb : a.HPBonus = 0 <;> simp [hb] <;> omega

/-- C4, witness for the amended round-trip law at a concrete input. -/
theorem c4_equip_unequip_roundtrip_witness :
    c4Char.Stats.HP ≤ c4Char.Stats.HPMax ∧
    ((c4Char.EquipArmor c4Armor).1.UnequipArmor).Stats.HP =
      min (c4Char.Stats.HP + c4Armor.HPBonus) c4Char.Stats.HPMax :=
  ⟨by decide, (c4_equip_unequip_roundtrip c4Char c4Armor (by decide)).2.2.2⟩

/-- C8: a skill whose MP cost exceeds the actor's current MP aborts
atomically: the battle state (actor MP, every target's HP, all status
effects) is returned unchanged, no randomness is consumed, and the only
output is the failed-attempt log line. -/
theorem c8_insufficient_mp_aborts (b : Battle) (r : Ref) (c : Character)
    (idx : Nat) (s : Skill) (targs : List Ref) (rng : RNG)
    (hc : b.get r = some c) (hs : c.Skills[idx]? = some s)
    (hmp : c.Stats.MP < s.MPCost) :
    b.useSkillAtB r idx targs rng = (b, [.lacksMP c.Name s.Name], rng) := by
  simp [Battle.useSkillAtB, hc, hs, hmp]

/-- C8, witness: the spec scenario (cost 8, 5 MP) on a concrete battle. -/
theorem c8_insufficient_mp_aborts_witness :
    c8B.useSkillAtB ⟨true, 0⟩ 0 [⟨false, 0⟩] rngZero =
      (c8B, [.lacksMP "A" "bolt"], rngZero) :=
  c8_insufficient_mp_aborts c8B ⟨true, 0⟩ c8Actor 0 c8Skill [⟨false, 0⟩] rngZero
    (by decide) (by decide) (by decide)

/-- C5, counterexample: a non-player actor below half HP using a skill with
`healAmount = 0` is redirected onto itself — the claim says a zero-heal
skill is never self-redirected, but the Go condition
`s.HealHP > 0 || (hp < hpMax/2 && team != "player")` fires on its second
disjunct. -/
theorem c5_self_target_counterexample :
    c5B.skillTargets ⟨false, 0⟩ c5Enemy c5Strike true = [⟨false, 0⟩] ∧
    c5Strike.HealHP = 0 ∧
    c5B.firstAliveRef true = some ⟨true, 0⟩ ∧ (⟨true, 0⟩ : Ref) ≠ ⟨false, 0⟩ := by
  decide

/-- C5, amended: for a non-`TargetAll` skill the self-target override fires
exactly when the skill heals (`healAmount > 0`, any actor, any HP) or when
the actor is a non-player below half of max HP (any skill, including pure
damage ones); otherwise the target is the first living opposing combatant. -/
theorem c5_self_target_policy (b : Battle) (r : Ref) (actor : Character)
    (s : Skill) (tSide : Bool) (hside : r.side ≠ tSide) (hTA : s.TargetAll = false) :
    (b.skillTargets r actor s tSide = [r] ↔
      (0 < s.HealHP ∨
        (actor.Stats.HP < Int.tdiv actor.Stats.HPMax 2 ∧ actor.Team ≠ "player"))) := by
  unfold Battle.skillTargets
  simp only [hTA, Bool.false_eq_true, if_false]
  constructor
  · intro h
    by_contra hcond
    rw [if_neg hcond] at h
    cases hfa : b.firstAliveRef tSide with
    | none => rw [hfa] at h; simp at h
    | some t =>
        rw [hfa] at h
        simp at h
        have := firstAliveRef_side b tSide t hfa
        rw [h] at this
        exact hside this
  · intro h
    rw [if_pos h]

/-- C5, witness for the amended policy at a concrete input. -/
theorem c5_self_target_policy_witness :
    (⟨false, 0⟩ : Ref).side ≠ true ∧ c5Strike.TargetAll = false ∧
    (c5B.skillTargets ⟨false, 0⟩ c5Enemy c5Strike true = [⟨false, 0⟩] ↔
      (0 < c5Strike.HealHP ∨
        (c5Enemy.Stats.HP < Int.tdiv c5Enemy.Stats.HPMax 2 ∧ c5Enemy.Team ≠ "player"))) :=
  ⟨by decide, by decide,
    c5_self_target_policy c5B ⟨false, 0⟩ c5Enemy c5Strike true (by decide) (by decide)⟩


/-- One end-of-turn pass keeps exactly the effects whose decremented
duration is still positive, decremented: the kept list is governed by
`expireMap 1`. -/
theorem tickEffects_fst (name : String) (es : List Effect) :
    (tickEffects name es).1 = es.filterMap (expireMap 1) := by
  induction es with
  | nil => rfl
  | cons e es ih =>
      by_cases h : 0 < e.Duration - 1
      · have h1 : (1 : ℤ) < e.Duration := by omega
        simp [tickEffects, Effect.Tick, expireMap, h, h1, ih]
      · have h1 : ¬(1 : ℤ) < e.Duration := by omega
        simp [tickEffects, Effect.Tick, expireMap, h, h1, ih]

/-- Composing one tick with `n ≥ 1` further ticks expires effects exactly
like `n + 1` ticks. -/
theorem expireMap_step (n : ℤ) (hn : 1 ≤ n) (e : Effect) :
    (expireMap 1 e).bind (expireMap n) = expireMap (n + 1) e := by
  unfold expireMap
  by_cases h1 : (1 : ℤ) < e.Duration
  · rw [if_pos h1]
    simp only [Option.some_bind]
    show (if n < e.Duration - 1 then
        some { e with Duration := e.Duration - 1 - n } else none) = _
    by_cases h2 : n < e.Duration - 1
    · rw [if_pos h2, if_pos (by omega), show e.Duration - 1 - n = e.Duration - (n + 1) by omega]
    · rw [if_neg h2, if_neg (by omega)]
  · rw [if_neg h1]
    simp only [Option.none_bind]
    rw [if_neg (by omega)]

/-- `endTurnN` never touches any field except `Effects`. -/
theorem endTurnN_fields (n : Nat) (c : Character) :
    (endTurnN n c).Stats = c.Stats ∧ (endTurnN n c).Weapon = c.Weapon ∧
    (endTurnN n c).Armor = c.Armor ∧ (endTurnN n c).Alive = c.Alive ∧
    (endTurnN n c).Name = c.Name := by
  induction n generalizing c with
  | zero => exact ⟨rfl, rfl, rfl, rfl, rfl⟩
  | succ n ih =>
      have := ih (c.ApplyEffectsEndTurn).1
      simpa [endTurnN, Character.ApplyEffectsEndTurn] using this

/-- Effects surviving `n ≥ 1` end-of-turn ticks are exactly the initial
effects with duration above `n`, with durations reduced by `n`. -/
theorem endTurnN_effects (c : Character) (n : Nat) (h : 1 ≤ n) :
    (endTurnN n c).Effects = c.Effects.filterMap (expireMap (n : ℤ)) := by
  induction n, h using Nat.le_induction generalizing c with
  | base =>
      show ((c.ApplyEffectsEndTurn).1).Effects = _
      unfold Character.ApplyEffectsEndTurn
      simp only [tickEffects_fst]
      rfl
  | succ n hn ih =>
      show (endTurnN n (c.ApplyEffectsEndTurn).1).Effects = _
      rw [ih]
      unfold Character.ApplyEffectsEndTurn
      simp only [tickEffects_fst, List.filterMap_filterMap]
      apply List.filterMap_congr
      intro e _
      rw [expireMap_step (n : ℤ) (by exact_mod_cast hn) e]
      norm_cast

/-- C9: after exactly `d ≥ 1` end-of-turn ticks on its holder, the surviving
effect list is the initial one filtered to durations above `d` (so an effect
attached with `remainingDuration = d` is gone, while after fewer ticks a
positive-duration remnant of it is still present), every survivor stems from
an initial effect with duration above `d`, and effective attack is computed
from the survivors only — a removed effect's stat deltas no longer
contribute. -/
theorem c9_effect_expiry (c : Character) (d : Nat) (h : 1 ≤ d) :
    (endTurnN d c).Effects = c.Effects.filterMap (expireMap (d : ℤ)) ∧
    (∀ e2 ∈ (endTurnN d c).Effects, ∃ e ∈ c.Effects,
      (d : ℤ) < e.Duration ∧ e2 = { e with Duration := e.Duration - d }) ∧
    (endTurnN d c).EffectiveAttack =
      (c.Effects.filterMap (expireMap (d : ℤ))).foldl (fun a e => a + e.AtkMod)
        (c.Stats.Attack + (match c.Weapon with | some w => w.AttackBonus | none => 0)) := by
  refine ⟨endTurnN_effects c d h, ?_, ?_⟩
  · intro e2 he2
    rw [endTurnN_effects c d h] at he2
    rw [List.mem_filterMap] at he2
    obtain ⟨e, he, hcond⟩ := he2
    unfold expireMap at hcond
    by_cases hd : (d : ℤ) < e.Duration
    · rw [if_pos hd] at hcond
      exact ⟨e, he, hd, (Option.some.injEq _ _ ▸ hcond).symm⟩
    · rw [if_neg hd] at hcond
      simp at hcond
  · unfold Character.EffectiveAttack
    rw [endTurnN_effects c d h, (endTurnN_fields d c).1, (endTurnN_fields d c).2.1]

/-- C9, witness: a 2-round effect on a concrete holder is governed by the
expiry law; it is gone after two ticks, still present after one, and its
attack delta stops contributing. -/
theorem c9_effect_expiry_witness :
    (1 : Nat) ≤ 2 ∧
    (endTurnN 2 c9Char).Effects = c9Char.Effects.filterMap (expireMap 2) ∧
    (endTurnN 2 c9Char).Effects = [] ∧ (endTurnN 1 c9Char).Effects ≠ [] ∧
    (endTurnN 2 c9Char).EffectiveAttack = 5 ∧ c9Char.EffectiveAttack = 8 :=
  ⟨by decide, (c9_effect_expiry c9Char 2 (by decide)).1, by decide, by decide,
    by decide, by decide⟩


/-- `Character.TakeDamage` never resurrects: a dead combatant stays dead. -/
theorem TakeDamage_alive_mono (c : Character) (a : ℤ) (t : DamageType)
    (h : c.Alive = false) : ((c.TakeDamage a t).1).Alive = false := by
  simp only [Character.TakeDamage]
  split <;> simp [h]

/-- Start-of-turn DOT processing never resurrects. -/
theorem StartTurn_alive_mono (c : Character) (h : c.Alive = false) :
    ((c.ApplyEffectsStartTurn).1).Alive = false := by
  simp only [Character.ApplyEffectsStartTurn]
  split
  · exact TakeDamage_alive_mono _ _ _ h
  · exact h

/-- End-of-turn effect ticking never changes the alive flag. -/
theorem EndTurn_alive (c : Character) :
    ((c.ApplyEffectsEndTurn).1).Alive = c.Alive := rfl

/-- `Character.Heal` never changes the alive flag (no resurrection). -/
theorem Heal_alive (c : Character) (a : ℤ) : (c.Heal a).Alive = c.Alive := by
  simp only [Character.Heal]
  split <;> rfl

/-- Reading a list at the position just written. -/
theorem list_set_getElem?_self {α : Type} (l : List α) (i : Nat) (a : α) :
    (l.set i a)[i]? = (l[i]?).map (fun _ => a) := by
  by_cases hl : i < l.length
  · rw [List.getElem?_set]
    simp [hl, getElem?_pos l i hl]
  · rw [List.getElem?_set]
    simp [hl, getElem?_neg l i (by omega)]

/-- `Character.AddEffect` never changes the alive flag. -/
theorem AddEffect_alive (c : Character) (e : Effect) :
    (((c.AddEffect e)).1).Alive = c.Alive := rfl

/-- Dereference at the pointer just written: the new combatant (when the
pointer is valid). -/
theorem Battle.get_setAt_self (b : Battle) (r : Ref) (c : Character) :
    (b.setAt r c).get r = (b.get r).map (fun _ => c) := by
  rcases r with ⟨s, i⟩
  unfold Battle.setAt Battle.get
  cases s <;> simp [list_set_getElem?_self]

/-- Dereference at a different pointer is unaffected by a write. -/
theorem Battle.get_setAt_ne (b : Battle) (r r' : Ref) (c : Character) (h : r ≠ r') :
    (b.setAt r c).get r' = b.get r' := by
  rcases r with ⟨s, i⟩
  rcases r' with ⟨s', i'⟩
  unfold Battle.setAt Battle.get
  cases s <;> cases s' <;> simp_all [List.getElem?_set, Ref.mk.injEq]

/-- Death conservation is reflexive. -/
theorem deadMono_refl (b : Battle) : deadMono b b := fun _ h => h

/-- Death conservation composes. -/
theorem deadMono_trans {b1 b2 b3 : Battle} (h12 : deadMono b1 b2)
    (h23 : deadMono b2 b3) : deadMono b1 b3 := fun r h => h23 r (h12 r h)

/-- A pointer write conserves deaths when the written combatant is dead
whenever the overwritten one was. -/
theorem deadMono_setAt (b : Battle) (r : Ref) (c' : Character)
    (h : ∀ c0, b.get r = some c0 → c0.Alive = false → c'.Alive = false) :
    deadMono b (b.setAt r c') := by
  intro r' hdead c1 hget
  by_cases hrr : r = r'
  · subst hrr
    rw [Battle.get_setAt_self] at hget
    rcases hg : b.get r with _ | c0
    · rw [hg] at hget; simp at hget
    · rw [hg] at hget
      simp at hget
      rw [← hget]
      exact h c0 hg (hdead c0 hg)
  · rw [Battle.get_setAt_ne b r r' c' hrr] at hget
    exact hdead c1 hget

/-- A pointer update by an alive-flag-conserving function conserves deaths. -/
theorem deadMono_modifyAt (b : Battle) (r : Ref) (f : Character → Character × Log)
    (hf : ∀ c, c.Alive = false → ((f c).1).Alive = false) :
    deadMono b (b.modifyAt r f).1 := by
  unfold Battle.modifyAt
  rcases hg : b.get r with _ | c
  · exact deadMono_refl b
  · apply deadMono_setAt
    intro c0 hg0 hdead0
    rw [hg] at hg0
    injection hg0 with hh
    subst hh
    exact hf _ hdead0

/-- Changing the round counter conserves deaths. -/
theorem deadMono_withRound (b : Battle) (k : ℤ) :
    deadMono b { b with Round := k } := fun _ h c hget => h c hget


/-- A basic attack conserves deaths. -/
theorem deadMono_basicAttackAt (b : Battle) (aRef tRef : Ref) (rng : RNG) :
    deadMono b (b.basicAttackAt aRef tRef rng).1 := by
  unfold Battle.basicAttackAt
  rcases hg : b.get aRef with _ | c
  · exact deadMono_refl b
  · dsimp only
    by_cases ha : c.Alive = false
    · rw [if_pos ha]
      exact deadMono_refl b
    · rw [if_neg ha]
      exact deadMono_modifyAt b tRef _ (fun t h => TakeDamage_alive_mono t _ _ h)

/-- The skill damage pass conserves deaths. -/
theorem deadMono_skillDamageLoop (aRef : Ref) (s : Skill) :
    ∀ (ts : List Ref) (b : Battle) (rng : RNG),
      deadMono b (skillDamageLoop aRef s b ts rng).1 := by
  intro ts
  induction ts with
  | nil => intro b rng; exact deadMono_refl b
  | cons t rest ih =>
      intro b rng
      unfold skillDamageLoop
      rcases hgt : b.get t with _ | tc <;> rcases hga : b.get aRef with _ | ac
      · exact ih b rng
      · exact ih b rng
      · exact ih b rng
      · show deadMono b ((if tc.Alive = false then skillDamageLoop aRef s b rest rng
          else _).1)
        by_cases htc : tc.Alive = false
        · rw [if_pos htc]
          exact ih b rng
        · rw [if_neg htc]
          refine deadMono_trans ?_ (ih _ _)
          rcases hse : s.Effect with _ | e
          · refine deadMono_setAt b t _ ?_
            intro c0 hg0 hd
            rw [hgt] at hg0
            injection hg0 with hh
            subst hh
            exact TakeDamage_alive_mono _ _ _ hd
          · refine deadMono_trans (deadMono_setAt b t _ ?_) (deadMono_modifyAt _ t _ ?_)
            · intro c0 hg0 hd
              rw [hgt] at hg0
              injection hg0 with hh
              subst hh
              exact TakeDamage_alive_mono _ _ _ hd
            · intro c2 h2
              rw [AddEffect_alive]
              exact h2

/-- The skill heal pass conserves deaths (healing cannot revive). -/
theorem deadMono_skillHealLoop (aRef : Ref) (s : Skill) :
    ∀ (ts : List Ref) (b : Battle),
      deadMono b (skillHealLoop aRef s b ts).1 := by
  intro ts
  induction ts with
  | nil => intro b; exact deadMono_refl b
  | cons t rest ih =>
      intro b
      unfold skillHealLoop
      rcases hgt : b.get t with _ | tc <;> rcases hga : b.get aRef with _ | ac
      · exact ih b
      · exact ih b
      · exact ih b
      · show deadMono b ((if tc.Alive = false then skillHealLoop aRef s b rest
          else _).1)
        by_cases htc : tc.Alive = false
        · rw [if_pos htc]
          exact ih b
        · rw [if_neg htc]
          refine deadMono_trans ?_ (ih _)
          rcases hse : s.Effect with _ | e
          · refine deadMono_setAt b t _ ?_
            intro c0 hg0 hd
            rw [hgt] at hg0
            injection hg0 with hh
            subst hh
            rw [Heal_alive]
            exact hd
          · refine deadMono_trans (deadMono_setAt b t _ ?_) (deadMono_modifyAt _ t _ ?_)
            · intro c0 hg0 hd
              rw [hgt] at hg0
              injection hg0 with hh
              subst hh
              rw [Heal_alive]
              exact hd
            · intro c2 h2
              rw [AddEffect_alive]
              exact h2

/-- A full skill use conserves deaths. -/
theorem deadMono_useSkillAtB (b : Battle) (aRef : Ref) (idx : Nat)
    (ts : List Ref) (rng : RNG) :
    deadMono b (b.useSkillAtB aRef idx ts rng).1 := by
  unfold Battle.useSkillAtB
  rcases hg : b.get aRef with _ | c
  · exact deadMono_refl b
  · dsimp only
    rcases hs : c.Skills[idx]? with _ | s
    · exact deadMono_refl b
    · dsimp only
      by_cases hmp : c.Stats.MP < s.MPCost
      · rw [if_pos hmp]
        exact deadMono_refl b
      · rw [if_neg hmp]
        have h1 : deadMono b (b.setAt aRef
            { c with Stats := { c.Stats with MP := c.Stats.MP - s.MPCost } }) := by
          refine deadMono_setAt b aRef _ ?_
          intro c0 hg0 hd
          rw [hg] at hg0
          injection hg0 with hh
          subst hh
          exact hd
        by_cases hdm : 0 < s.DamageMultiplier <;> by_cases hhl : 0 < s.HealHP
        · rw [if_pos hdm, if_pos hhl]
          exact deadMono_trans (deadMono_trans h1
            (deadMono_skillDamageLoop aRef s ts _ rng)) (deadMono_skillHealLoop aRef s ts _)
        · rw [if_pos hdm, if_neg hhl]
          exact deadMono_trans h1 (deadMono_skillDamageLoop aRef s ts _ rng)
        · rw [if_neg hdm, if_pos hhl]
          exact deadMono_trans h1 (deadMono_skillHealLoop aRef s ts _)
        · rw [if_neg hdm, if_neg hhl]
          exact h1

/-- The basic-attack fallback conserves deaths. -/
theorem deadMono_tryBasicAttack (b : Battle) (r : Ref) (tSide : Bool) (rng : RNG) :
    deadMono b (b.tryBasicAttack r tSide rng).1 := by
  unfold Battle.tryBasicAttack
  rcases hfa : b.firstAliveRef tSide with _ | t
  · exact deadMono_refl b
  · exact deadMono_basicAttackAt b r t rng

/-- One actor's whole turn conserves deaths. -/
theorem deadMono_actTurn (b : Battle) (r : Ref) (rng : RNG) :
    deadMono b (b.actTurn r rng).1 := by
  unfold Battle.actTurn
  rcases hg : b.get r with _ | actor
  · exact deadMono_refl b
  · show deadMono b ((if actor.Alive = false then (b, [], rng, false) else _).1)
    by_cases ha : actor.Alive = false
    · rw [if_pos ha]
      exact deadMono_refl b
    · rw [if_neg ha]
      have d1 : deadMono b (b.modifyAt r Character.ApplyEffectsStartTurn).1 :=
        deadMono_modifyAt b r _ (fun c h => StartTurn_alive_mono c h)
      show deadMono b
        ((match (b.modifyAt r Character.ApplyEffectsStartTurn).1.get r with
          | none => _ | some actor1 => _ : Battle × Log × RNG × Bool).1)
      rcases hg1 : (b.modifyAt r Character.ApplyEffectsStartTurn).1.get r with _ | actor1
      · exact d1
      · refine deadMono_trans (deadMono_trans d1 ?_) (deadMono_modifyAt _ r _ ?_)
        · show deadMono _ ((if 0 < actor1.Skills.length then _
            else _ : Battle × Log × RNG).1)
          by_cases hsl : 0 < actor1.Skills.length
          · rw [if_pos hsl]
            show deadMono _ ((if (RNG.nextFloat rng).1 < mkRat 1 2 then _
              else _ : Battle × Log × RNG).1)
            by_cases hf : (RNG.nextFloat rng).1 < mkRat 1 2
            · rw [if_pos hf]
              show deadMono _
                ((match actor1.Skills[(((RNG.nextFloat rng).2.nextIntn
                    (actor1.Skills.length : ℤ)).1).toNat]? with
                  | some s => _ | none => _ : Battle × Log × RNG).1)
              rcases hsi : actor1.Skills[(((RNG.nextFloat rng).2.nextIntn
                  (actor1.Skills.length : ℤ)).1).toNat]? with _ | s
              · exact deadMono_tryBasicAttack _ _ _ _
              · show deadMono _ ((if s.MPCost ≤ actor1.Stats.MP then _
                  else _ : Battle × Log × RNG).1)
                by_cases hmp : s.MPCost ≤ actor1.Stats.MP
                · rw [if_pos hmp]
                  exact deadMono_useSkillAtB _ _ _ _ _
                · rw [if_neg hmp]
                  exact deadMono_tryBasicAttack _ _ _ _
            · rw [if_neg hf]
              exact deadMono_tryBasicAttack _ _ _ _
          · rw [if_neg hsl]
            exact deadMono_tryBasicAttack _ _ _ _
        · intro c h
          rw [EndTurn_alive]
          exact h

/-- The round's actor loop conserves deaths. -/
theorem deadMono_turnLoop :
    ∀ (rs : List Ref) (b : Battle) (rng : RNG), deadMono b (turnLoop rs b rng).1 := by
  intro rs
  induction rs with
  | nil => intro b rng; exact deadMono_refl b
  | cons r rest ih =>
      intro b rng
      unfold turnLoop
      show deadMono b ((if (b.actTurn r rng).2.2.2 = true ∧
          ((b.actTurn r rng).1.AllDead "player" = true ∨
            (b.actTurn r rng).1.AllDead "enemy" = true) then _
          else _ : Battle × Log × RNG).1)
      by_cases hcond : (b.actTurn r rng).2.2.2 = true ∧
          ((b.actTurn r rng).1.AllDead "player" = true ∨
            (b.actTurn r rng).1.AllDead "enemy" = true)
      · rw [if_pos hcond]
        exact deadMono_actTurn b r rng
      · rw [if_neg hcond]
        exact deadMono_trans (deadMono_actTurn b r rng) (ih _ _)

/-- A whole round conserves deaths. -/
theorem deadMono_Turn (b : Battle) (rng : RNG) : deadMono b (b.Turn rng).1 := by
  unfold Battle.Turn
  exact deadMono_trans (deadMono_withRound b (b.Round + 1)) (deadMono_turnLoop _ _ _)

/-- The main battle loop conserves deaths: once a combatant's alive flag is
false it stays false for the remainder of the battle. -/
theorem deadMono_runFuel (fuel : Nat) :
    ∀ (b : Battle) (rng : RNG), deadMono b (Battle.runFuel fuel b rng).battle := by
  induction fuel with
  | zero =>
      intro b rng
      unfold Battle.runFuel
      by_cases h : (b.AllDead "player" = true ∨ b.AllDead "enemy" = true)
      · rw [if_pos h]
        exact deadMono_refl b
      · rw [if_neg h]
        exact deadMono_refl b
  | succ n ih =>
      intro b rng
      unfold Battle.runFuel
      by_cases h : (b.AllDead "player" = true ∨ b.AllDead "enemy" = true)
      · rw [if_pos h]
        exact deadMono_refl b
      · rw [if_neg h]
        exact deadMono_trans (deadMono_Turn b rng) (ih _ _)

/-- C2: damage application always deals at least 1 point (the mitigated
amount is floored at 1), keeps `0 ≤ hp ≤ maxHP` for any raw amount, damage
type and defense/resistance (given the incoming invariant `hp ≤ maxHP`,
`0 ≤ maxHP`), clamps `hp` to 0 on kill, sets the alive flag to false exactly
when `hp` hits 0, and the flag never returns to true for the remainder of
the battle. -/
theorem c2_damage_invariants (c : Character) (amount : ℤ) (dtype : DamageType)
    (h1 : c.Stats.HP ≤ c.Stats.HPMax) (h2 : 0 ≤ c.Stats.HPMax) :
    1 ≤ c.mitigate amount dtype ∧
    0 ≤ ((c.TakeDamage amount dtype).1).Stats.HP ∧
    ((c.TakeDamage amount dtype).1).Stats.HP ≤ c.Stats.HPMax ∧
    ((c.TakeDamage amount dtype).1).Stats.HP ≤ max 0 (c.Stats.HP - 1) ∧
    (((c.TakeDamage amount dtype).1).Stats.HP = 0 →
      ((c.TakeDamage amount dtype).1).Alive = false) ∧
    (c.Alive = false → ((c.TakeDamage amount dtype).1).Alive = false) ∧
    (∀ (fuel : Nat) (b : Battle) (rng : RNG) (r : Ref) (c0 c1 : Character),
      b.get r = some c0 → c0.Alive = false →
      (Battle.runFuel fuel b rng).battle.get r = some c1 → c1.Alive = false) := by
  have hmit : 1 ≤ c.mitigate amount dtype := by
    rcases dtype <;>
      (simp only [Character.mitigate]
       split <;> omega)
  have key1 : ((c.TakeDamage amount dtype).1).Stats.HP =
      if c.Stats.HP - c.mitigate amount dtype ≤ 0 then 0
      else c.Stats.HP - c.mitigate amount dtype := by
    simp only [Character.TakeDamage]
    split <;> simp_all
  have key2 : ((c.TakeDamage amount dtype).1).Alive =
      if c.Stats.HP - c.mitigate amount dtype ≤ 0 then false else c.Alive := by
    simp only [Character.TakeDamage]
    split <;> simp_all
  obtain ⟨m, hm⟩ : ∃ m, c.mitigate amount dtype = m := ⟨_, rfl⟩
  rw [hm] at key1 key2 hmit
  refine ⟨by rw [hm]; exact hmit, ?_, ?_, ?_, ?_, ?_,
    fun fuel b rng r c0 c1 hg hd hg1 =>
      (deadMono_runFuel fuel b rng r (fun c2 hg2 => by
        rw [hg] at hg2
        injection hg2 with hh
        subst hh
        exact hd)) c1 hg1⟩
  · rw [key1]
    split <;> omega
  · rw [key1]
    split <;> omega
  · rw [key1]
    split <;> omega
  · rw [key1, key2]
    intro h0
    by_cases hle : c.Stats.HP - m ≤ 0
    · rw [if_pos hle]
    · rw [if_neg hle] at h0
      omega
  · rw [key2]
    intro h
    split <;> simp_all


/-- C2, witness: the invariants at a concrete combatant and hit. -/
theorem c2_damage_invariants_witness :
    c2Char.Stats.HP ≤ c2Char.Stats.HPMax ∧ (0 : ℤ) ≤ c2Char.Stats.HPMax ∧
    1 ≤ c2Char.mitigate 7 .physical ∧
    0 ≤ ((c2Char.TakeDamage 7 .physical).1).Stats.HP :=
  ⟨by decide, by decide,
    (c2_damage_invariants c2Char 7 .physical (by decide) (by decide)).1,
    (c2_damage_invariants c2Char 7 .physical (by decide) (by decide)).2.1⟩

/-- C7: damage mitigation is `rawAmount − effectiveDefense/2` (truncated
division) for physical hits, `rawAmount − resistance/2` for magic hits and
the raw amount for pure hits, each floored at 1; and in the spec scenario —
attack 6, weapon range [3,6], defender defense 3, no crit — the basic attack
deals between 8 and 11 damage (raw value between 9 and 12 in the log). -/
theorem c7_mitigation_and_scenario (c : Character) (amount : ℤ) (rng : RNG)
    (hf : 0 ≤ rng.floats 0) :
    c.mitigate amount .physical = max 1 (amount - Int.tdiv c.EffectiveDefense 2) ∧
    c.mitigate amount .magic = max 1 (amount - Int.tdiv c.Stats.Resist 2) ∧
    c.mitigate amount .pure = max 1 amount ∧
    (∃ d, 8 ≤ d ∧ d ≤ 11 ∧
      (c7B.basicAttackAt ⟨true, 0⟩ ⟨false, 0⟩ rng).1.get ⟨false, 0⟩ =
        some { c7Target with Stats := { c7Target.Stats with HP := 100 - d } } ∧
      (c7B.basicAttackAt ⟨true, 0⟩ ⟨false, 0⟩ rng).2.1 =
        [.attacks "A" "T" (d + 1) DamageType.physical]) := by
  refine ⟨?_, ?_, ?_, ?_⟩
  · simp only [Character.mitigate]
    split <;> omega
  · simp only [Character.mitigate]
    split <;> omega
  · simp only [Character.mitigate]
    split <;> omega
  · rcases rng with ⟨ints, floats⟩
    simp only at hf
    have hr0 : 0 ≤ Int.emod (ints 0 : ℤ) 4 := Int.emod_nonneg _ (by norm_num)
    have hr1 : Int.emod (ints 0 : ℤ) 4 < 4 := Int.emod_lt_of_pos _ (by norm_num)
    have hnof : ¬ ((floats 0 : ℚ) < 0) := not_lt.mpr hf
    have htdiv : Int.tdiv 3 2 = 1 := by decide
    have hfloor : ¬ ((Int.emod (ints 0 : ℤ) 4) + 3 + 6 - 1 < 1) := by omega
    have hko : ¬ ((100 : ℤ) ≤ (Int.emod (ints 0 : ℤ) 4) + 3 + 6 - 1) := by omega
    refine ⟨Int.emod (ints 0 : ℤ) 4 + 8, by omega, by omega, ?_, ?_⟩
    · simp [Battle.basicAttackAt, Battle.get, c7B, c7Attacker, c7Target,
        RNG.nextIntn, RNG.nextFloat, Battle.modifyAt, Battle.setAt,
        Character.TakeDamage, Character.mitigate, Character.EffectiveAttack,
        Character.EffectiveDefense, hnof, htdiv, hfloor, hko,
        Character.mk.injEq, Stats.mk.injEq]
      omega
    · simp [Battle.basicAttackAt, Battle.get, c7B, c7Attacker, c7Target,
        RNG.nextIntn, RNG.nextFloat, Battle.modifyAt, Battle.setAt,
        Character.TakeDamage, Character.mitigate, Character.EffectiveAttack,
        Character.EffectiveDefense, hnof, htdiv, hfloor, hko,
        LogEvent.attacks.injEq]
      omega

/-- C7, witness: the mitigation law and the 8–11 damage scenario at the
all-zero random stream. -/
theorem c7_mitigation_and_scenario_witness :
    (0 : ℚ) ≤ rngZero.floats 0 ∧
    c7Target.mitigate 12 .physical =
      max 1 (12 - Int.tdiv c7Target.EffectiveDefense 2) ∧
    (∃ d, 8 ≤ d ∧ d ≤ 11 ∧
      (c7B.basicAttackAt ⟨true, 0⟩ ⟨false, 0⟩ rngZero).1.get ⟨false, 0⟩ =
        some { c7Target with Stats := { c7Target.Stats with HP := 100 - d } } ∧
      (c7B.basicAttackAt ⟨true, 0⟩ ⟨false, 0⟩ rngZero).2.1 =
        [.attacks "A" "T" (d + 1) DamageType.physical]) :=
  ⟨by decide, (c7_mitigation_and_scenario c7Target 12 rngZero (by decide)).1,
    (c7_mitigation_and_scenario c7Target 12 rngZero (by decide)).2.2.2⟩

/-- Membership in an insertion step. -/
theorem mem_insertBy (less : Ref → Ref → Prop) [DecidableRel less] (x z : Ref)
    (l : List Ref) (hz : z ∈ insertBy less x l) : z = x ∨ z ∈ l := by
  induction l with
  | nil => simpa [insertBy] using hz
  | cons y ys ih =>
      unfold insertBy at hz
      split at hz
      · rcases List.mem_cons.mp hz with h | h
        · exact Or.inr (h ▸ List.mem_cons_self y ys)
        · rcases ih h with h2 | h2
          · exact Or.inl h2
          · exact Or.inr (List.mem_cons_of_mem y h2)
      · rcases List.mem_cons.mp hz with h | h
        · exact Or.inl h
        · exact Or.inr h

/-- An insertion step is a permutation. -/
theorem insertBy_perm (less : Ref → Ref → Prop) [DecidableRel less] (x : Ref)
    (l : List Ref) : (insertBy less x l).Perm (x :: l) := by
  induction l with
  | nil => exact List.Perm.refl _
  | cons y ys ih =>
      unfold insertBy
      split
      · exact (ih.cons y).trans (List.Perm.swap x y ys)
      · exact List.Perm.refl _

/-- The sort permutes its input. -/
theorem insertionSortBy_perm (less : Ref → Ref → Prop) [DecidableRel less]
    (l : List Ref) : (insertionSortBy less l).Perm l := by
  induction l with
  | nil => exact List.Perm.refl _
  | cons x xs ih =>
      exact (insertBy_perm less x (insertionSortBy less xs)).trans (ih.cons x)

/-- An insertion step preserves non-increasing effective speed. -/
theorem insertBy_sorted (b : Battle) (x : Ref) (l : List Ref)
    (hs : List.Pairwise (fun r1 r2 => b.speedKey r2 ≤ b.speedKey r1) l) :
    List.Pairwise (fun r1 r2 => b.speedKey r2 ≤ b.speedKey r1)
      (insertBy b.speedLess x l) := by
  induction l with
  | nil => simp [insertBy]
  | cons y ys ih =>
      rcases List.pairwise_cons.mp hs with ⟨hy, hys⟩
      unfold insertBy
      split
      · rename_i hlt
        refine List.pairwise_cons.mpr ⟨?_, ih hys⟩
        intro z hz
        rcases mem_insertBy b.speedLess x z ys hz with h | h
        · subst h
          exact le_of_lt hlt
        · exact hy z h
      · rename_i hnlt
        refine List.pairwise_cons.mpr ⟨?_, hs⟩
        intro z hz
        rcases List.mem_cons.mp hz with h | h
        · subst h
          exact not_lt.mp hnlt
        · exact le_trans (hy z h) (not_lt.mp hnlt)

/-- The turn order is non-increasing in effective speed. -/
theorem sortRefs_sorted (b : Battle) (l : List Ref) :
    List.Pairwise (fun r1 r2 => b.speedKey r2 ≤ b.speedKey r1) (b.sortRefs l) := by
  unfold Battle.sortRefs
  induction l with
  | nil => simp [insertionSortBy]
  | cons x xs ih =>
      exact insertBy_sorted b x _ ih

/-- Inserting an element of a tie class places it at the head of the class
(the inserted element is the earliest in input order). -/
theorem filter_insertBy_pos (b : Battle) (p : Ref → Bool) (x : Ref) (l : List Ref)
    (hpx : p x = true) (hskip : ∀ y, p y = true → ¬ b.speedLess y x) :
    (insertBy b.speedLess x l).filter p = x :: l.filter p := by
  induction l with
  | nil => simp [insertBy, hpx]
  | cons y ys ih =>
      unfold insertBy
      split
      · rename_i hlt
        have hpy : p y = false := by
          by_contra hc
          exact hskip y (by simpa using hc) hlt
        simp [List.filter_cons, hpy, ih]
      · simp [List.filter_cons, hpx]

/-- Inserting an element outside a tie class leaves the class unchanged. -/
theorem filter_insertBy_neg (b : Battle) (p : Ref → Bool) (x : Ref) (l : List Ref)
    (hpx : p x = false) :
    (insertBy b.speedLess x l).filter p = l.filter p := by
  induction l with
  | nil => simp [insertBy, hpx]
  | cons y ys ih =>
      unfold insertBy
      split
      · simp [List.filter_cons, ih]
      · simp [List.filter_cons, hpx]

/-- Stability: each equal-speed class appears in the output in its input
(roster) order. -/
theorem sortRefs_stable (b : Battle) (l : List Ref) (v : ℤ) :
    (b.sortRefs l).filter (fun r => decide (b.speedKey r = v)) =
      l.filter (fun r => decide (b.speedKey r = v)) := by
  unfold Battle.sortRefs
  induction l with
  | nil => rfl
  | cons x xs ih =>
      show (insertBy b.speedLess x (insertionSortBy b.speedLess xs)).filter _ = _
      by_cases hpx : b.speedKey x = v
      · rw [filter_insertBy_pos b _ x _ (by simpa using hpx) ?_]
        · simp [List.filter_cons, hpx, ih]
        · intro y hpy
          unfold Battle.speedLess
          simp at hpy
          rw [hpx, hpy]
          omega
      · rw [filter_insertBy_neg b _ x _ (by simpa using hpx)]
        simp [List.filter_cons, hpx, ih]

/-- C6: the round's acting order (built by `Battle.Turn` as `sortRefs` of the
combined players-then-enemies pointer list) is a permutation of that list,
non-increasing in effective speed, deterministic, and stable — combatants of
equal effective speed act in roster order (players before enemies, each in
input order); on the spec's speeds [7,5,4,6] the resolved order is
7,6,5,4.  The hypothesis bounds the roster size at 12: Go's `sort.Slice`
runs its insertion sort — which this model reproduces exactly — for slices
of at most 12 elements, and every battle this program builds has 5. -/
theorem c6_turn_order (b : Battle) (h : b.allRefs.length ≤ 12) :
    (b.sortRefs b.allRefs).Perm b.allRefs ∧
    List.Pairwise (fun r1 r2 => b.speedKey r2 ≤ b.speedKey r1)
      (b.sortRefs b.allRefs) ∧
    (∀ v : ℤ,
      (b.sortRefs b.allRefs).filter (fun r => decide (b.speedKey r = v)) =
        b.allRefs.filter (fun r => decide (b.speedKey r = v))) ∧
    c6B.sortRefs c6B.allRefs = [⟨true, 0⟩, ⟨false, 1⟩, ⟨true, 1⟩, ⟨false, 0⟩] :=
  ⟨insertionSortBy_perm b.speedLess b.allRefs, sortRefs_sorted b b.allRefs,
    sortRefs_stable b b.allRefs, by decide⟩

/-- C6, witness: the turn-order law applied to the concrete 4-combatant
battle with speeds [7,5,4,6]. -/
theorem c6_turn_order_witness :
    c6B.allRefs.length ≤ 12 ∧
    (c6B.sortRefs c6B.allRefs).Perm c6B.allRefs ∧
    c6B.sortRefs c6B.allRefs = [⟨true, 0⟩, ⟨false, 1⟩, ⟨true, 1⟩, ⟨false, 0⟩] :=
  ⟨by decide, (c6_turn_order c6B (by decide)).1,
    (c6_turn_order c6B (by decide)).2.2.2⟩

/-- In the battle `c1B`, the single round wipes both rosters: the player dies
to its own start-of-turn DOT and still casts its strike (`UseSkillAt` has no
actor-liveness check), killing the last enemy. -/
theorem c1_turn_wipes :
    (Battle.Turn c1B rngZero).1.AllDead "player" = true ∧
    (Battle.Turn c1B rngZero).1.AllDead "enemy" = true := by
  have h05 : (0:ℚ) < mkRat 1 2 := by norm_num
  have hi5 : intOfRat (((5:ℤ) : ℚ) * 1) = 5 := by simp [intOfRat]
  have hmod : (Int.emod 0 1).toNat = 0 := by decide
  have hi5b : intOfRat 5 = 5 := by simp [intOfRat]
  have hmod3 : Int.emod 0 3 = 0 := by decide
  simp [Battle.Turn, turnLoop, Battle.actTurn, Battle.sortRefs, insertionSortBy,
    insertBy, Battle.allRefs, Battle.sideRefs, Battle.rosterOf, Battle.speedLess,
    Battle.speedKey, Battle.get, Battle.setAt, Battle.modifyAt, Battle.AllDead,
    Battle.firstAliveRef, Battle.skillTargets, Battle.useSkillAtB, skillDamageLoop,
    skillHealLoop, Battle.tryBasicAttack, Battle.basicAttackAt,
    Character.ApplyEffectsStartTurn, Character.ApplyEffectsEndTurn, tickEffects,
    Character.TakeDamage, Character.mitigate, Character.EffectiveAttack,
    Character.EffectiveDefense, Character.EffectiveSpeed, Character.Heal,
    Character.AddEffect, Effect.Tick, RNG.nextIntn, RNG.nextFloat,
    c1B, c1P, c1E, c1Strike, c1DotEffect, rngZero, h05, hi5, hmod, hi5b, hmod3]

/-- C1, counterexample: a battle in which both rosters are wiped in the same
round ends with the winner line reported as a players' win (`Battle.Run`
prints "Players win!" whenever the enemy roster is down, even if the player
roster is down too), contradicting the claimed enemies-win tie-break. -/
theorem c1_mutual_defeat_counterexample :
    (Battle.runFuel 2 c1B rngZero).winner = some true ∧
    (Battle.runFuel 2 c1B rngZero).battle.AllDead "player" = true ∧
    (Battle.runFuel 2 c1B rngZero).battle.AllDead "enemy" = true := by
  obtain ⟨hp, he⟩ := c1_turn_wipes
  have h0 : ¬ (c1B.AllDead "player" = true ∨ c1B.AllDead "enemy" = true) := by decide
  unfold Battle.runFuel
  rw [if_neg h0]
  show (Battle.runFuel 1 (Battle.Turn c1B rngZero).1
        (Battle.Turn c1B rngZero).2.2).winner = some true ∧
      (Battle.runFuel 1 (Battle.Turn c1B rngZero).1
        (Battle.Turn c1B rngZero).2.2).battle.AllDead "player" = true ∧
      (Battle.runFuel 1 (Battle.Turn c1B rngZero).1
        (Battle.Turn c1B rngZero).2.2).battle.AllDead "enemy" = true
  unfold Battle.runFuel
  rw [if_pos (Or.inl hp)]
  exact ⟨by rw [he], hp, he⟩

/-- C1, amended: whenever the `Battle.Run` loop terminates, the reported
winner is the players iff the enemy roster is fully defeated — regardless of
the player roster — so a simultaneous mutual defeat is reported as a
players' win (the winner check tests the enemy roster first); and an
enemies' win implies the player roster is fully defeated. -/
theorem c1_winner_amended (fuel : Nat) :
    ∀ (b : Battle) (rng : RNG) (w : Bool),
      (Battle.runFuel fuel b rng).winner = some w →
      ((w = true ↔ (Battle.runFuel fuel b rng).battle.AllDead "enemy" = true) ∧
        (w = false → (Battle.runFuel fuel b rng).battle.AllDead "player" = true)) := by
  induction fuel with
  | zero =>
      intro b rng w hw
      unfold Battle.runFuel at hw ⊢
      by_cases hover : (b.AllDead "player" = true ∨ b.AllDead "enemy" = true)
      · rw [if_pos hover] at hw ⊢
        simp only [Option.some.injEq] at hw
        subst hw
        constructor
        · simp
        · intro hfalse
          rcases hover with h | h
          · exact h
          · rw [h] at hfalse
            simp at hfalse
      · rw [if_neg hover] at hw
        simp at hw
  | succ n ih =>
      intro b rng w hw
      unfold Battle.runFuel at hw ⊢
      by_cases hover : (b.AllDead "player" = true ∨ b.AllDead "enemy" = true)
      · rw [if_pos hover] at hw ⊢
        simp only [Option.some.injEq] at hw
        subst hw
        constructor
        · simp
        · intro hfalse
          rcases hover with h | h
          · exact h
          · rw [h] at hfalse
            simp at hfalse
      · rw [if_neg hover] at hw ⊢
        exact ih (b.Turn rng).1 (b.Turn rng).2.2 w hw

/-- C1, witness: in a battle whose enemy roster is already wiped, the
reported winner is the players. -/
theorem c1_winner_amended_witness :
    (Battle.runFuel 0 c1WB rngZero).winner = some true ∧
    (true = true ↔ (Battle.runFuel 0 c1WB rngZero).battle.AllDead "enemy" = true) :=
  ⟨by decide, (c1_winner_amended 0 c1WB rngZero true (by decide)).1⟩

/-- A pointer write never changes the round counter. -/
theorem setAt_Round (b : Battle) (r : Ref) (c : Character) :
    (b.setAt r c).Round = b.Round := by
  unfold Battle.setAt
  split <;> rfl

/-- A pointer update never changes the round counter. -/
theorem modifyAt_Round (b : Battle) (r : Ref) (f : Character → Character × Log) :
    ((b.modifyAt r f).1).Round = b.Round := by
  unfold Battle.modifyAt
  rcases hg : b.get r with _ | c
  · rfl
  · exact setAt_Round b r (f c).1

/-- A basic attack never changes the round counter. -/
theorem basicAttackAt_Round (b : Battle) (aRef tRef : Ref) (rng : RNG) :
    ((b.basicAttackAt aRef tRef rng).1).Round = b.Round := by
  unfold Battle.basicAttackAt
  rcases hg : b.get aRef with _ | c
  · rfl
  · show ((if c.Alive = false then (b, ([] : Log), rng) else _).1).Round = b.Round
    by_cases ha : c.Alive = false
    · rw [if_pos ha]
    · rw [if_neg ha]
      exact modifyAt_Round b tRef _

/-- The skill damage pass never changes the round counter. -/
theorem skillDamageLoop_Round (aRef : Ref) (s : Skill) :
    ∀ (ts : List Ref) (b : Battle) (rng : RNG),
      ((skillDamageLoop aRef s b ts rng).1).Round = b.Round := by
  intro ts
  induction ts with
  | nil => intro b rng; rfl
  | cons t rest ih =>
      intro b rng
      unfold skillDamageLoop
      rcases hgt : b.get t with _ | tc <;> rcases hga : b.get aRef with _ | ac
      · exact ih b rng
      · exact ih b rng
      · exact ih b rng
      · show (((if tc.Alive = false then skillDamageLoop aRef s b rest rng
            else _).1)).Round = b.Round
        by_cases htc : tc.Alive = false
        · rw [if_pos htc]
          exact ih b rng
        · rw [if_neg htc]
          refine Eq.trans (ih _ _) ?_
          rcases hse : s.Effect with _ | e
          · exact setAt_Round b t _
          · exact Eq.trans (modifyAt_Round _ t _) (setAt_Round b t _)

/-- The skill heal pass never changes the round counter. -/
theorem skillHealLoop_Round (aRef : Ref) (s : Skill) :
    ∀ (ts : List Ref) (b : Battle),
      ((skillHealLoop aRef s b ts).1).Round = b.Round := by
  intro ts
  induction ts with
  | nil => intro b; rfl
  | cons t rest ih =>
      intro b
      unfold skillHealLoop
      rcases hgt : b.get t with _ | tc <;> rcases hga : b.get aRef with _ | ac
      · exact ih b
      · exact ih b
      · exact ih b
      · show (((if tc.Alive = false then skillHealLoop aRef s b rest
            else _).1)).Round = b.Round
        by_cases htc : tc.Alive = false
        · rw [if_pos htc]
          exact ih b
        · rw [if_neg htc]
          refine Eq.trans (ih _) ?_
          rcases hse : s.Effect with _ | e
          · exact setAt_Round b t _
          · exact Eq.trans (modifyAt_Round _ t _) (setAt_Round b t _)

/-- A full skill use never changes the round counter. -/
theorem useSkillAtB_Round (b : Battle) (aRef : Ref) (idx : Nat)
    (ts : List Ref) (rng : RNG) :
    ((b.useSkillAtB aRef idx ts rng).1).Round = b.Round := by
  unfold Battle.useSkillAtB
  rcases hg : b.get aRef with _ | c
  · rfl
  · dsimp only
    rcases hs : c.Skills[idx]? with _ | s
    · rfl
    · dsimp only
      show ((if c.Stats.MP < s.MPCost then (b, _, rng) else _ :
        Battle × Log × RNG).1).Round = b.Round
      by_cases hmp : c.Stats.MP < s.MPCost
      · rw [if_pos hmp]
      · rw [if_neg hmp]
        have h1 : (b.setAt aRef
            { c with Stats := { c.Stats with MP := c.Stats.MP - s.MPCost } }).Round
            = b.Round := setAt_Round b aRef _
        by_cases hdm : 0 < s.DamageMultiplier <;> by_cases hhl : 0 < s.HealHP
        · rw [if_pos hdm, if_pos hhl]
          exact ((skillHealLoop_Round aRef s ts _).trans
            (skillDamageLoop_Round aRef s ts _ rng)).trans h1
        · rw [if_pos hdm, if_neg hhl]
          exact (skillDamageLoop_Round aRef s ts _ rng).trans h1
        · rw [if_neg hdm, if_pos hhl]
          exact (skillHealLoop_Round aRef s ts _).trans h1
        · rw [if_neg hdm, if_neg hhl]
          exact h1

/-- The basic-attack fallback never changes the round counter. -/
theorem tryBasicAttack_Round (b : Battle) (r : Ref) (tSide : Bool) (rng : RNG) :
    ((b.tryBasicAttack r tSide rng).1).Round = b.Round := by
  unfold Battle.tryBasicAttack
  rcases hfa : b.firstAliveRef tSide with _ | t
  · rfl
  · exact basicAttackAt_Round b r t rng

/-- One actor's whole turn never changes the round counter. -/
theorem actTurn_Round (b : Battle) (r : Ref) (rng : RNG) :
    ((b.actTurn r rng).1).Round = b.Round := by
  unfold Battle.actTurn
  rcases hg : b.get r with _ | actor
  · rfl
  · show ((if actor.Alive = false then (b, [], rng, false) else _).1).Round = b.Round
    by_cases ha : actor.Alive = false
    · rw [if_pos ha]
    · rw [if_neg ha]
      have d1 : ((b.modifyAt r Character.ApplyEffectsStartTurn).1).Round = b.Round :=
        modifyAt_Round b r _
      show (((match (b.modifyAt r Character.ApplyEffectsStartTurn).1.get r with
          | none => _ | some actor1 => _ : Battle × Log × RNG × Bool)).1).Round = b.Round
      rcases hg1 : (b.modifyAt r Character.ApplyEffectsStartTurn).1.get r with _ | actor1
      · exact d1
      · refine Eq.trans (modifyAt_Round _ r _) (Eq.trans ?_ d1)
        show ((if 0 < actor1.Skills.length then _
            else _ : Battle × Log × RNG).1).Round = _
        by_cases hsl : 0 < actor1.Skills.length
        · rw [if_pos hsl]
          show ((if (RNG.nextFloat rng).1 < mkRat 1 2 then _
            else _ : Battle × Log × RNG).1).Round = _
          by_cases hf : (RNG.nextFloat rng).1 < mkRat 1 2
          · rw [if_pos hf]
            show (((match actor1.Skills[(((RNG.nextFloat rng).2.nextIntn
                (actor1.Skills.length : ℤ)).1).toNat]? with
                | some s => _ | none => _ : Battle × Log × RNG)).1).Round = _
            rcases hsi : actor1.Skills[(((RNG.nextFloat rng).2.nextIntn
                (actor1.Skills.length : ℤ)).1).toNat]? with _ | s
            · exact tryBasicAttack_Round _ _ _ _
            · show ((if s.MPCost ≤ actor1.Stats.MP then _
                else _ : Battle × Log × RNG).1).Round = _
              by_cases hmp : s.MPCost ≤ actor1.Stats.MP
              · rw [if_pos hmp]
                exact useSkillAtB_Round _ _ _ _ _
              · rw [if_neg hmp]
                exact tryBasicAttack_Round _ _ _ _
          · rw [if_neg hf]
            exact tryBasicAttack_Round _ _ _ _
        · rw [if_neg hsl]
          exact tryBasicAttack_Round _ _ _ _

/-- The actor loop never changes the round counter. -/
theorem turnLoop_Round :
    ∀ (rs : List Ref) (b : Battle) (rng : RNG),
      ((turnLoop rs b rng).1).Round = b.Round := by
  intro rs
  induction rs with
  | nil => intro b rng; rfl
  | cons r rest ih =>
      intro b rng
      unfold turnLoop
      show ((if (b.actTurn r rng).2.2.2 = true ∧
          ((b.actTurn r rng).1.AllDead "player" = true ∨
            (b.actTurn r rng).1.AllDead "enemy" = true) then _
          else _ : Battle × Log × RNG).1).Round = b.Round
      by_cases hcond : (b.actTurn r rng).2.2.2 = true ∧
          ((b.actTurn r rng).1.AllDead "player" = true ∨
            (b.actTurn r rng).1.AllDead "enemy" = true)
      · rw [if_pos hcond]
        exact actTurn_Round b r rng
      · rw [if_neg hcond]
        exact (ih _ _).trans (actTurn_Round b r rng)

/-- `Battle.Turn` increments the round counter by exactly one. -/
theorem Turn_Round (b : Battle) (rng : RNG) :
    ((b.Turn rng).1).Round = b.Round + 1 := by
  unfold Battle.Turn
  exact turnLoop_Round _ _ _

/-- C3, amended: the round number increases by exactly one per executed
round, hence is monotonically non-decreasing over the whole run — but
termination itself is not guaranteed (see the non-terminating
counterexample battle, whose actors self-heal forever at zero MP cost). -/
theorem c3_round_monotone (b : Battle) (rng : RNG) :
    ((b.Turn rng).1).Round = b.Round + 1 ∧
    ∀ fuel, b.Round ≤ ((Battle.runFuel fuel b rng).battle).Round := by
  refine ⟨Turn_Round b rng, ?_⟩
  intro fuel
  induction fuel generalizing b rng with
  | zero =>
      unfold Battle.runFuel
      by_cases h : (b.AllDead "player" = true ∨ b.AllDead "enemy" = true)
      · rw [if_pos h]
      · rw [if_neg h]
  | succ n ih =>
      unfold Battle.runFuel
      by_cases h : (b.AllDead "player" = true ∨ b.AllDead "enemy" = true)
      · rw [if_pos h]
      · rw [if_neg h]
        have h1 := ih (b.Turn rng).1 (b.Turn rng).2.2
        have h2 := Turn_Round b rng
        show b.Round ≤ ((Battle.runFuel n (b.Turn rng).1 (b.Turn rng).2.2).battle).Round
        omega

/-- C3, counterexample: the battle `c3B 0` — both sides repeatedly cast a
zero-MP-cost self-heal at full health — never terminates: after every round
the combat state is exactly the initial one, so the `Battle.Run` loop runs
forever, for any amount of fuel. -/
theorem c3_nonterminating_counterexample : ¬ Terminates (c3B 0) rngZero := by
  have hstep : ∀ k : ℤ, ∃ l,
      Battle.Turn (c3B k) rngZero = (c3B (k + 1), l, rngZero) :=
    fun k => ⟨_, rfl⟩
  have halive : ∀ k : ℤ,
      ¬ ((c3B k).AllDead "player" = true ∨ (c3B k).AllDead "enemy" = true) := by
    intro k h
    simp [c3B, Battle.AllDead, c3P, c3E] at h
  have hnone : ∀ (n : Nat) (k : ℤ),
      (Battle.runFuel n (c3B k) rngZero).winner = none := by
    intro n
    induction n with
    | zero =>
        intro k
        unfold Battle.runFuel
        rw [if_neg (halive k)]
    | succ m ih =>
        intro k
        unfold Battle.runFuel
        rw [if_neg (halive k)]
        obtain ⟨l, hl⟩ := hstep k
        rw [hl]
        show (Battle.runFuel m (c3B (k + 1)) rngZero).winner = none
        exact ih (k + 1)
  intro ⟨n, hn⟩
  rw [hnone n 0] at hn
  simp at hn

/-- Scrubbing touches no field but `Weapon`/`Armor`. -/
theorem scrubChar_fields (c : Character) :
    (scrubChar c).Stats = c.Stats ∧ (scrubChar c).Skills = c.Skills ∧
    (scrubChar c).Effects = c.Effects ∧ (scrubChar c).Alive = c.Alive ∧
    (scrubChar c).Team = c.Team ∧ (scrubChar c).Name = c.Name :=
  ⟨rfl, rfl, rfl, rfl, rfl, rfl⟩

/-- Effective attack ignores `MagicBonus`/`ResistBonus`. -/
theorem scrub_EffectiveAttack (c : Character) :
    (scrubChar c).EffectiveAttack = c.EffectiveAttack := by
  unfold Character.EffectiveAttack scrubChar
  rcases c.Weapon with _ | w <;> rfl

/-- Effective defense ignores `MagicBonus`/`ResistBonus`. -/
theorem scrub_EffectiveDefense (c : Character) :
    (scrubChar c).EffectiveDefense = c.EffectiveDefense := by
  unfold Character.EffectiveDefense scrubChar
  rcases c.Armor with _ | a <;> rfl

/-- Effective speed ignores equipment entirely. -/
theorem scrub_EffectiveSpeed (c : Character) :
    (scrubChar c).EffectiveSpeed = c.EffectiveSpeed := rfl

/-- Damage mitigation ignores the scrubbed fields (magic mitigation reads
only the base `Resist` stat). -/
theorem scrub_mitigate (c : Character) (amount : ℤ) (dtype : DamageType) :
    (scrubChar c).mitigate amount dtype = c.mitigate amount dtype := by
  unfold Character.mitigate
  rw [scrub_EffectiveDefense]
  rfl

/-- `TakeDamage` commutes with scrubbing, log included. -/
theorem scrub_TakeDamage (c : Character) (amount : ℤ) (dtype : DamageType) :
    (scrubChar c).TakeDamage amount dtype =
      (scrubChar (c.TakeDamage amount dtype).1, (c.TakeDamage amount dtype).2) := by
  unfold Character.TakeDamage
  rw [scrub_mitigate]
  show (if c.Stats.HP - c.mitigate amount dtype ≤ 0 then _ else _) = _
  by_cases hle : c.Stats.HP - c.mitigate amount dtype ≤ 0
  · rw [if_pos hle, if_pos hle]
    rfl
  · rw [if_neg hle, if_neg hle]
    rfl

/-- `Heal` commutes with scrubbing. -/
theorem scrub_Heal (c : Character) (amount : ℤ) :
    (scrubChar c).Heal amount = scrubChar (c.Heal amount) := by
  unfold Character.Heal
  show (if c.Stats.HPMax < c.Stats.HP + amount then _ else _) = _
  by_cases hlt : c.Stats.HPMax < c.Stats.HP + amount
  · rw [if_pos hlt, if_pos hlt]
    rfl
  · rw [if_neg hlt, if_neg hlt]
    rfl

/-- `AddEffect` commutes with scrubbing. -/
theorem scrub_AddEffect (c : Character) (e : Effect) :
    (scrubChar c).AddEffect e =
      (scrubChar ((c.AddEffect e)).1, ((c.AddEffect e)).2) := rfl

/-- Start-of-turn DOT commutes with scrubbing. -/
theorem scrub_StartTurn (c : Character) :
    (scrubChar c).ApplyEffectsStartTurn =
      (scrubChar (c.ApplyEffectsStartTurn).1, (c.ApplyEffectsStartTurn).2) := by
  unfold Character.ApplyEffectsStartTurn
  show (if (List.foldl _ 0 c.Effects) ≠ 0 then _ else _) = _
  by_cases hd : (c.Effects.foldl (fun a e => if e.DotHP ≠ 0 then a + e.DotHP else a) 0) ≠ 0
  · rw [if_pos hd, if_pos hd]
    rw [scrub_TakeDamage]
    rfl
  · rw [if_neg hd, if_neg hd]

/-- End-of-turn ticking commutes with scrubbing. -/
theorem scrub_EndTurn (c : Character) :
    (scrubChar c).ApplyEffectsEndTurn =
      (scrubChar (c.ApplyEffectsEndTurn).1, (c.ApplyEffectsEndTurn).2) := rfl

/-- Dereference commutes with scrubbing. -/
theorem scrub_get (b : Battle) (r : Ref) :
    (scrubBattle b).get r = (b.get r).map scrubChar := by
  unfold Battle.get scrubBattle
  rcases r with ⟨s, i⟩
  cases s <;> simp

/-- Pointer write commutes with scrubbing. -/
theorem scrub_setAt (b : Battle) (r : Ref) (c : Character) :
    (scrubBattle b).setAt r (scrubChar c) = scrubBattle (b.setAt r c) := by
  unfold Battle.setAt scrubBattle
  rcases r with ⟨s, i⟩
  cases s <;> simp [List.map_set]

/-- Roster-defeat checks ignore the scrubbed fields. -/
theorem scrub_AllDead (b : Battle) (team : String) :
    (scrubBattle b).AllDead team = b.AllDead team := by
  unfold Battle.AllDead scrubBattle
  have hfun : ((fun c => !c.Alive) ∘ scrubChar) = (fun (c : Character) => !c.Alive) :=
    funext fun c => rfl
  by_cases ht : team = "player" <;> simp [ht, List.all_map, hfun]

/-- Scrubbing preserves roster sizes. -/
theorem scrub_rosterOf_length (b : Battle) (side : Bool) :
    ((scrubBattle b).rosterOf side).length = (b.rosterOf side).length := by
  unfold Battle.rosterOf scrubBattle
  cases side <;> simp

/-- Scrubbing preserves the pointer lists. -/
theorem scrub_sideRefs (b : Battle) (side : Bool) :
    (scrubBattle b).sideRefs side = b.sideRefs side := by
  unfold Battle.sideRefs
  rw [scrub_rosterOf_length]

/-- Scrubbing preserves the combined pointer list. -/
theorem scrub_allRefs (b : Battle) :
    (scrubBattle b).allRefs = b.allRefs := by
  unfold Battle.allRefs
  rw [scrub_sideRefs, scrub_sideRefs]

/-- The first-living-target choice ignores the scrubbed fields. -/
theorem scrub_firstAliveRef (b : Battle) (side : Bool) :
    (scrubBattle b).firstAliveRef side = b.firstAliveRef side := by
  unfold Battle.firstAliveRef
  have hros : (scrubBattle b).rosterOf side = (b.rosterOf side).map scrubChar := by
    unfold Battle.rosterOf scrubBattle
    cases side <;> simp
  rw [hros, List.findIdx?_map]
  rfl

/-- Sort keys ignore the scrubbed fields. -/
theorem scrub_speedKey (b : Battle) (r : Ref) :
    (scrubBattle b).speedKey r = b.speedKey r := by
  unfold Battle.speedKey
  rw [scrub_get]
  rcases b.get r with _ | c
  · rfl
  · exact scrub_EffectiveSpeed c

/-- Insertion steps of pointwise-equal comparators coincide. -/
theorem insertBy_congr (less1 less2 : Ref → Ref → Prop) [DecidableRel less1]
    [DecidableRel less2] (hl : ∀ y z, less1 y z ↔ less2 y z) (x : Ref) :
    ∀ l : List Ref, insertBy less1 x l = insertBy less2 x l := by
  intro l
  induction l with
  | nil => rfl
  | cons y ys ih =>
      unfold insertBy
      rw [if_congr (hl y x) rfl rfl, ih]

/-- Sorts by pointwise-equal comparators coincide. -/
theorem insertionSortBy_congr (less1 less2 : Ref → Ref → Prop) [DecidableRel less1]
    [DecidableRel less2] (hl : ∀ y z, less1 y z ↔ less2 y z) :
    ∀ l : List Ref, insertionSortBy less1 l = insertionSortBy less2 l := by
  intro l
  induction l with
  | nil => rfl
  | cons x xs ih =>
      unfold insertionSortBy
      rw [ih, insertBy_congr less1 less2 hl]

/-- The turn ordering ignores the scrubbed fields. -/
theorem scrub_sortRefs (b : Battle) (l : List Ref) :
    (scrubBattle b).sortRefs l = b.sortRefs l := by
  unfold Battle.sortRefs
  exact insertionSortBy_congr _ _ (fun y z => by
    unfold Battle.speedLess
    rw [scrub_speedKey, scrub_speedKey]) l

/-- Target selection ignores the scrubbed fields. -/
theorem scrub_skillTargets (b : Battle) (r : Ref) (actor : Character) (s : Skill)
    (tSide : Bool) :
    (scrubBattle b).skillTargets r (scrubChar actor) s tSide =
      b.skillTargets r actor s tSide := by
  unfold Battle.skillTargets
  rw [scrub_firstAliveRef, scrub_sideRefs]
  rfl

/-- Projection fact used by the commutation proofs. -/
theorem scrubChar_Stats (c : Character) : (scrubChar c).Stats = c.Stats := rfl

/-- Projection fact used by the commutation proofs. -/
theorem scrubChar_Skills (c : Character) : (scrubChar c).Skills = c.Skills := rfl

/-- Projection fact used by the commutation proofs. -/
theorem scrubChar_Effects (c : Character) : (scrubChar c).Effects = c.Effects := rfl

/-- Projection fact used by the commutation proofs. -/
theorem scrubChar_Alive (c : Character) : (scrubChar c).Alive = c.Alive := rfl

/-- Projection fact used by the commutation proofs. -/
theorem scrubChar_Team (c : Character) : (scrubChar c).Team = c.Team := rfl

/-- Projection fact used by the commutation proofs. -/
theorem scrubChar_Name (c : Character) : (scrubChar c).Name = c.Name := rfl

/-- Pointer updates commute with scrubbing when the update does. -/
theorem scrub_modifyAt (b : Battle) (r : Ref) (f g : Character → Character × Log)
    (hf : ∀ c, f (scrubChar c) = (scrubChar (g c).1, (g c).2)) :
    (scrubBattle b).modifyAt r f =
      (scrubBattle ((b.modifyAt r g).1), (b.modifyAt r g).2) := by
  unfold Battle.modifyAt
  rw [scrub_get]
  rcases hg : b.get r with _ | c
  · rfl
  · show ((scrubBattle b).setAt r (f (scrubChar c)).1, (f (scrubChar c)).2) = _
    rw [hf c, scrub_setAt]


/-- Weapon projection of a scrubbed combatant. -/
theorem scrubChar_Weapon (c : Character) :
    (scrubChar c).Weapon = c.Weapon.map scrubWeapon := rfl

/-- Armor projection of a scrubbed combatant. -/
theorem scrubChar_Armor (c : Character) :
    (scrubChar c).Armor = c.Armor.map scrubArmor := rfl

/-- Scrubbing keeps the weapon damage floor. -/
theorem scrubWeapon_DamageMin (w : Weapon) : (scrubWeapon w).DamageMin = w.DamageMin := rfl

/-- Scrubbing keeps the weapon damage ceiling. -/
theorem scrubWeapon_DamageMax (w : Weapon) : (scrubWeapon w).DamageMax = w.DamageMax := rfl

/-- Scrubbing keeps the weapon damage type. -/
theorem scrubWeapon_DamageType (w : Weapon) : (scrubWeapon w).DamageType = w.DamageType := rfl

/-- Scrubbing keeps the weapon name. -/
theorem scrubWeapon_Name (w : Weapon) : (scrubWeapon w).Name = w.Name := rfl

/-- Damage application through a pointer commutes with scrubbing. -/
theorem scrub_modifyAt_TakeDamage (b : Battle) (r : Ref) (amount : ℤ)
    (dtype : DamageType) :
    (scrubBattle b).modifyAt r (fun t => t.TakeDamage amount dtype) =
      (scrubBattle ((b.modifyAt r (fun t => t.TakeDamage amount dtype)).1),
        (b.modifyAt r (fun t => t.TakeDamage amount dtype)).2) :=
  scrub_modifyAt b r _ _ (fun c => scrub_TakeDamage c amount dtype)

/-- Effect attachment through a pointer commutes with scrubbing. -/
theorem scrub_modifyAt_AddEffect (b : Battle) (r : Ref) (e : Effect) :
    (scrubBattle b).modifyAt r (fun t => t.AddEffect e) =
      (scrubBattle ((b.modifyAt r (fun t => t.AddEffect e)).1),
        (b.modifyAt r (fun t => t.AddEffect e)).2) :=
  scrub_modifyAt b r _ _ (fun c => scrub_AddEffect c e)

/-- Start-of-turn processing through a pointer commutes with scrubbing. -/
theorem scrub_modifyAt_StartTurn (b : Battle) (r : Ref) :
    (scrubBattle b).modifyAt r Character.ApplyEffectsStartTurn =
      (scrubBattle ((b.modifyAt r Character.ApplyEffectsStartTurn).1),
        (b.modifyAt r Character.ApplyEffectsStartTurn).2) :=
  scrub_modifyAt b r _ _ scrub_StartTurn

/-- End-of-turn processing through a pointer commutes with scrubbing. -/
theorem scrub_modifyAt_EndTurn (b : Battle) (r : Ref) :
    (scrubBattle b).modifyAt r Character.ApplyEffectsEndTurn =
      (scrubBattle ((b.modifyAt r Character.ApplyEffectsEndTurn).1),
        (b.modifyAt r Character.ApplyEffectsEndTurn).2) :=
  scrub_modifyAt b r _ _ scrub_EndTurn

/-- A basic attack commutes with scrubbing. -/
theorem scrub_basicAttackAt (b : Battle) (aRef tRef : Ref) (rng : RNG) :
    (scrubBattle b).basicAttackAt aRef tRef rng =
      (scrubBattle (b.basicAttackAt aRef tRef rng).1,
        (b.basicAttackAt aRef tRef rng).2.1,
        (b.basicAttackAt aRef tRef rng).2.2) := by
  rcases hg : b.get aRef with _ | c
  · simp [Battle.basicAttackAt, scrub_get, hg]
  · by_cases ha : c.Alive = false
    · simp [Battle.basicAttackAt, scrub_get, hg, scrubChar_Alive, ha]
    · rcases hgt : b.get tRef with _ | tc <;> rcases hw : c.Weapon with _ | w <;>
        simp [Battle.basicAttackAt, scrub_get, hg, hgt, hw, scrubChar_Alive, ha,
          scrubChar_Weapon, scrubChar_Stats, scrubChar_Name, scrub_EffectiveAttack,
          scrubWeapon_DamageMin, scrubWeapon_DamageMax, scrubWeapon_DamageType,
          RNG.nextIntn, RNG.nextFloat, scrub_modifyAt_TakeDamage]

/-- Projection fact used by the commutation proofs. -/
theorem scrubChar_ID (c : Character) : (scrubChar c).ID = c.ID := rfl

/-- Projection fact used by the commutation proofs. -/
theorem scrubChar_Inv (c : Character) : (scrubChar c).Inv = c.Inv := rfl

/-- The MP-deduction write of a skill use commutes with scrubbing. -/
theorem scrub_useSkill_setAt (b : Battle) (aRef : Ref) (c : Character) (k : ℤ) :
    (scrubBattle b).setAt aRef
      { ID := c.ID, Name := c.Name,
        Stats := { c.Stats with MP := c.Stats.MP - k },
        Weapon := c.Weapon.map scrubWeapon, Armor := c.Armor.map scrubArmor,
        Inv := c.Inv, Skills := c.Skills, Effects := c.Effects,
        Alive := c.Alive, Team := c.Team } =
      scrubBattle (b.setAt aRef
        { c with Stats := { c.Stats with MP := c.Stats.MP - k } }) :=
  scrub_setAt b aRef { c with Stats := { c.Stats with MP := c.Stats.MP - k } }

/-- Stat replacement commutes with scrubbing. -/
theorem scrubChar_withStats (c : Character) (st : Stats) :
    { scrubChar c with Stats := st } = scrubChar { c with Stats := st } := rfl

/-- The skill damage pass commutes with scrubbing, log and randomness
included. -/
theorem scrub_skillDamageLoop (aRef : Ref) (s : Skill) :
    ∀ (ts : List Ref) (b : Battle) (rng : RNG),
      skillDamageLoop aRef s (scrubBattle b) ts rng =
        (scrubBattle (skillDamageLoop aRef s b ts rng).1,
          (skillDamageLoop aRef s b ts rng).2.1,
          (skillDamageLoop aRef s b ts rng).2.2) := by
  intro ts
  induction ts with
  | nil => intro b rng; rfl
  | cons t rest ih =>
      intro b rng
      rcases hgt : b.get t with _ | tc <;> rcases hga : b.get aRef with _ | ac
      · simp [skillDamageLoop, scrub_get, hgt, hga, ih]
      · simp [skillDamageLoop, scrub_get, hgt, hga, ih]
      · simp [skillDamageLoop, scrub_get, hgt, hga, ih]
      · by_cases htc : tc.Alive = false
        · simp [skillDamageLoop, scrub_get, hgt, hga, scrubChar_Alive, htc, ih]
        · rcases hse : s.Effect with _ | e <;>
            simp [skillDamageLoop, scrub_get, hgt, hga, scrubChar_Alive, htc, hse,
              scrubChar_Stats, scrubChar_Name, scrub_EffectiveAttack, scrub_TakeDamage,
              scrub_setAt, scrub_modifyAt_AddEffect, RNG.nextIntn, RNG.nextFloat, ih]

/-- The skill heal pass commutes with scrubbing. -/
theorem scrub_skillHealLoop (aRef : Ref) (s : Skill) :
    ∀ (ts : List Ref) (b : Battle),
      skillHealLoop aRef s (scrubBattle b) ts =
        (scrubBattle (skillHealLoop aRef s b ts).1,
          (skillHealLoop aRef s b ts).2) := by
  intro ts
  induction ts with
  | nil => intro b; rfl
  | cons t rest ih =>
      intro b
      rcases hgt : b.get t with _ | tc <;> rcases hga : b.get aRef with _ | ac
      · simp [skillHealLoop, scrub_get, hgt, hga, ih]
      · simp [skillHealLoop, scrub_get, hgt, hga, ih]
      · simp [skillHealLoop, scrub_get, hgt, hga, ih]
      · by_cases htc : tc.Alive = false
        · simp [skillHealLoop, scrub_get, hgt, hga, scrubChar_Alive, htc, ih]
        · rcases hse : s.Effect with _ | e <;>
            simp [skillHealLoop, scrub_get, hgt, hga, scrubChar_Alive, htc, hse,
              scrubChar_Name, scrub_Heal, scrub_setAt, scrub_modifyAt_AddEffect, ih]

/-- A full skill use commutes with scrubbing. -/
theorem scrub_useSkillAtB (b : Battle) (aRef : Ref) (idx : Nat)
    (ts : List Ref) (rng : RNG) :
    (scrubBattle b).useSkillAtB aRef idx ts rng =
      (scrubBattle (b.useSkillAtB aRef idx ts rng).1,
        (b.useSkillAtB aRef idx ts rng).2.1,
        (b.useSkillAtB aRef idx ts rng).2.2) := by
  rcases hg : b.get aRef with _ | c
  · simp [Battle.useSkillAtB, scrub_get, hg]
  · rcases hs : c.Skills[idx]? with _ | s
    · simp [Battle.useSkillAtB, scrub_get, hg, scrubChar_Skills, scrubChar_Name, hs]
    · by_cases hmp : c.Stats.MP < s.MPCost
      · simp [Battle.useSkillAtB, scrub_get, hg, scrubChar_Skills, scrubChar_Stats,
          scrubChar_Name, hs, hmp]
      · by_cases hdm : 0 < s.DamageMultiplier <;> by_cases hhl : 0 < s.HealHP <;>
          simp [Battle.useSkillAtB, scrub_get, hg, scrubChar_Skills, scrubChar_Stats,
            scrubChar_Name, scrubChar_ID, scrubChar_Inv, scrubChar_Team,
            scrubChar_Alive, scrubChar_Effects, scrubChar_Weapon, scrubChar_Armor,
            hs, hmp, hdm, hhl, scrub_useSkill_setAt,
            scrub_skillDamageLoop, scrub_skillHealLoop]

/-- The basic-attack fallback commutes with scrubbing. -/
theorem scrub_tryBasicAttack (b : Battle) (r : Ref) (tSide : Bool) (rng : RNG) :
    (scrubBattle b).tryBasicAttack r tSide rng =
      (scrubBattle (b.tryBasicAttack r tSide rng).1,
        (b.tryBasicAttack r tSide rng).2.1,
        (b.tryBasicAttack r tSide rng).2.2) := by
  rcases hfa : b.firstAliveRef tSide with _ | t <;>
    simp [Battle.tryBasicAttack, scrub_firstAliveRef, hfa, scrub_basicAttackAt]

/-- One actor's whole turn commutes with scrubbing. -/
theorem scrub_actTurn (b : Battle) (r : Ref) (rng : RNG) :
    (scrubBattle b).actTurn r rng =
      (scrubBattle (b.actTurn r rng).1, (b.actTurn r rng).2.1,
        (b.actTurn r rng).2.2.1, (b.actTurn r rng).2.2.2) := by
  rcases hg : b.get r with _ | actor
  · simp [Battle.actTurn, scrub_get, hg]
  · by_cases ha : actor.Alive = false
    · simp [Battle.actTurn, scrub_get, hg, scrubChar_Alive, ha]
    · rcases hg1 : (b.modifyAt r Character.ApplyEffectsStartTurn).1.get r with _ | actor1
      · simp [Battle.actTurn, scrub_get, hg, scrubChar_Alive, ha,
          scrub_modifyAt_StartTurn, hg1, scrubChar_Name]
      · by_cases hsl : 0 < actor1.Skills.length
        · by_cases hf : (RNG.nextFloat rng).1 < mkRat 1 2
          · rcases hsi : actor1.Skills[(((RNG.nextFloat rng).2.nextIntn
                (actor1.Skills.length : ℤ)).1).toNat]? with _ | s
            · simp [Battle.actTurn, scrub_get, hg, scrubChar_Alive, ha,
                scrub_modifyAt_StartTurn, hg1, scrubChar_Name, scrubChar_Skills,
                scrubChar_Team, scrubChar_Stats, hsl, hf, hsi,
                scrub_tryBasicAttack, scrub_modifyAt_EndTurn]
            · by_cases hmp : s.MPCost ≤ actor1.Stats.MP <;>
                simp [Battle.actTurn, scrub_get, hg, scrubChar_Alive, ha,
                  scrub_modifyAt_StartTurn, hg1, scrubChar_Name, scrubChar_Skills,
                  scrubChar_Team, scrubChar_Stats, hsl, hf, hsi, hmp,
                  scrub_skillTargets, scrub_useSkillAtB,
                  scrub_tryBasicAttack, scrub_modifyAt_EndTurn]
          · simp [Battle.actTurn, scrub_get, hg, scrubChar_Alive, ha,
              scrub_modifyAt_StartTurn, hg1, scrubChar_Name, scrubChar_Skills,
              scrubChar_Team, hsl, hf, scrub_tryBasicAttack, scrub_modifyAt_EndTurn]
        · simp [Battle.actTurn, scrub_get, hg, scrubChar_Alive, ha,
            scrub_modifyAt_StartTurn, hg1, scrubChar_Name, scrubChar_Skills,
            scrubChar_Team, hsl, scrub_tryBasicAttack, scrub_modifyAt_EndTurn]

/-- Scrubbing keeps the round counter. -/
theorem scrubBattle_Round (b : Battle) : (scrubBattle b).Round = b.Round := rfl

/-- Round updates commute with scrubbing. -/
theorem scrubBattle_setRound (b : Battle) (k : ℤ) :
    { scrubBattle b with Round := k } = scrubBattle { b with Round := k } := rfl

/-- The actor loop commutes with scrubbing. -/
theorem scrub_turnLoop :
    ∀ (rs : List Ref) (b : Battle) (rng : RNG),
      turnLoop rs (scrubBattle b) rng =
        (scrubBattle (turnLoop rs b rng).1, (turnLoop rs b rng).2.1,
          (turnLoop rs b rng).2.2) := by
  intro rs
  induction rs with
  | nil => intro b rng; rfl
  | cons r rest ih =>
      intro b rng
      by_cases hcond : (b.actTurn r rng).2.2.2 = true ∧
          ((b.actTurn r rng).1.AllDead "player" = true ∨
            (b.actTurn r rng).1.AllDead "enemy" = true) <;>
        simp [turnLoop, scrub_actTurn, scrub_AllDead, hcond, ih]

/-- A whole round commutes with scrubbing. -/
theorem scrub_Turn (b : Battle) (rng : RNG) :
    (scrubBattle b).Turn rng =
      (scrubBattle (b.Turn rng).1, (b.Turn rng).2.1, (b.Turn rng).2.2) := by
  simp [Battle.Turn, scrubBattle_Round, scrubBattle_setRound, scrub_allRefs,
    scrub_sortRefs, scrub_turnLoop]

/-- The whole battle run commutes with scrubbing: winner, log and
randomness consumption only ever depend on the scrubbed state. -/
theorem scrub_runFuel (fuel : Nat) :
    ∀ (b : Battle) (rng : RNG),
      Battle.runFuel fuel (scrubBattle b) rng =
        ⟨(Battle.runFuel fuel b rng).winner,
          scrubBattle (Battle.runFuel fuel b rng).battle,
          (Battle.runFuel fuel b rng).log,
          (Battle.runFuel fuel b rng).rng⟩ := by
  induction fuel with
  | zero =>
      intro b rng
      by_cases h : (b.AllDead "player" = true ∨ b.AllDead "enemy" = true) <;>
        simp [Battle.runFuel, scrub_AllDead, h]
  | succ n ih =>
      intro b rng
      by_cases h : (b.AllDead "player" = true ∨ b.AllDead "enemy" = true) <;>
        simp [Battle.runFuel, scrub_AllDead, h, scrub_Turn, ih]

/-- C10: two battles whose initial states differ only in `Weapon.MagicBonus`
and `Armor.ResistBonus` (same random streams) produce the same winner, the
same event log, the same random-stream consumption, and final states again
differing at most in those two fields: the battle resolution never reads
them. -/
theorem c10_noninterference (n : Nat) (b1 b2 : Battle) (rng : RNG)
    (h : scrubBattle b1 = scrubBattle b2) :
    (Battle.runFuel n b1 rng).winner = (Battle.runFuel n b2 rng).winner ∧
    (Battle.runFuel n b1 rng).log = (Battle.runFuel n b2 rng).log ∧
    (Battle.runFuel n b1 rng).rng = (Battle.runFuel n b2 rng).rng ∧
    scrubBattle (Battle.runFuel n b1 rng).battle =
      scrubBattle (Battle.runFuel n b2 rng).battle := by
  have h1 := scrub_runFuel n b1 rng
  have h2 := scrub_runFuel n b2 rng
  rw [h] at h1
  have h3 := h1.symm.trans h2
  simp only [RunResult.mk.injEq] at h3
  exact ⟨h3.1, h3.2.2.1, h3.2.2.2, h3.2.1⟩

/-- C10, witness: a concrete battle pair differing only in `MagicBonus` 9
vs 1 and `ResistBonus` 7 vs 0 resolves identically for five rounds. -/
theorem c10_noninterference_witness :
    scrubBattle c10B1 = scrubBattle c10B2 ∧ c10B1 ≠ c10B2 ∧
    (Battle.runFuel 5 c10B1 rngZero).winner =
      (Battle.runFuel 5 c10B2 rngZero).winner ∧
    (Battle.runFuel 5 c10B1 rngZero).log = (Battle.runFuel 5 c10B2 rngZero).log :=
  ⟨by decide, by decide, (c10_noninterference 5 c10B1 c10B2 rngZero (by decide)).1,
    (c10_noninterference 5 c10B1 c10B2 rngZero (by decide)).2.1⟩
